import Mathlib

/-! # Arbitrary-precision matrix multiplication (`matrixmult.c`)

A shallow embedding of the BigInteger engine of
`sysprog/assignments/5_matrix/matrixmult.c` and of the matrix product built
on it, followed by theorems about the embedded functions.

Conventions of the embedding.

* `MAX_LENGTH` comes from `presettings.h`, which is not part of the source
  tree; every function that uses it takes it as its first argument.
* A digit buffer (`char *data`) is a function `Nat → Int` from byte index to
  byte value.  Indices `0 .. MAX_LENGTH - 1` are the `calloc`ed buffer;
  indices from `MAX_LENGTH` on stand for the memory behind it, so a store
  there is a store outside the buffer.
* Byte values are kept as mathematical integers.  All stored values lie in
  `0 .. 9` whenever the operands hold decimal digits, so the narrowing to
  `char` is the identity there.
* A C string is the list of its characters before the terminating NUL.
* Allocation never fails, so `EXIT_OUT_OF_MEM` is never produced.
* In-place mutation is explicit state passing: a function that writes through
  `src` and `dest` returns the new `src` and the new `dest`, and the value a
  function leaves in `*error` is part of its result.
-/

namespace Matrixmult

/-- Modelled from the spec: the status codes of `presettings.h` (the header is
not in the source tree).  Section 7 of the specification lists the kinds;
`EXIT_OK` is the success status every function starts from. -/
inductive error_t where
  | EXIT_OK
  | EXIT_INVALID_NUMBER
  | EXIT_NUMBER_TOO_BIG
  | EXIT_OUT_OF_MEM
  | EXIT_INCOMPATIBLE_DIM
  | EXIT_INVALID_MATRIX
  | EXIT_INTERNAL
  deriving DecidableEq

open error_t

/-- The struct `BigInteger`: `length`, `negative` and the digit buffer. -/
structure BigInteger where
  length : Nat
  negative : Bool
  data : Nat → Int

/-- The struct `Matrix`; `data row col` is `none` for a NULL cell. -/
structure Matrix where
  rows : Nat
  columns : Nat
  data : Nat → Nat → Option BigInteger

/-- The assignment `data[i] = v`. -/
def store (data : Nat → Int) (i : Nat) (v : Int) : Nat → Int :=
  fun j => if j = i then v else data j

/-- The call `memmove(dst + off, src, n)`: bytes `off .. off + n - 1` of `dst`
receive bytes `0 .. n - 1` of `src` (as they were before the call). -/
def memmove (dst : Nat → Int) (off : Nat) (src : Nat → Int) (n : Nat) : Nat → Int :=
  fun j => if off ≤ j ∧ j < off + n then src (j - off) else dst j

/-- The call `memset(dst, 0, n)`. -/
def memset_zero (dst : Nat → Int) (n : Nat) : Nat → Int :=
  fun j => if j < n then 0 else dst j

/-- One pass of the loop body of `reverse_big_integer_data`. -/
def reverse_step (bigint : BigInteger) (i : Nat) : BigInteger :=
  let reverse_i := bigint.length - 1 - i
  let temp := bigint.data reverse_i
  let data1 := store bigint.data reverse_i (bigint.data i)
  { bigint with data := store data1 i temp }

/-- The function `reverse_big_integer_data`: swaps `data[i]` and
`data[length - 1 - i]` for `i < length / 2`. -/
def reverse_big_integer_data (bigint : BigInteger) : BigInteger :=
  (List.range (bigint.length / 2)).foldl reverse_step bigint

/-- The expression `c - '0'`. -/
def digit_value (c : Char) : Int := (c.toNat : Int) - (Char.toNat '0' : Int)

/-- The `while` loop of `parse_raw_integer`: the remaining characters, the
counter `i`, the buffer.  Returns the final `i`, the buffer and the status
with which the loop was left. -/
def parse_raw_loop (MAX_LENGTH : Nat) :
    List Char → Nat → (Nat → Int) → Nat × (Nat → Int) × error_t
  | [], i, data => (i, data, EXIT_OK)
  | c :: rest, i, data =>
    if !c.isDigit then (i, data, EXIT_INVALID_NUMBER)
    else if i > MAX_LENGTH then (i, data, EXIT_NUMBER_TOO_BIG)
    else parse_raw_loop MAX_LENGTH rest (i + 1)
      (store data i (digit_value c))

/-- The function `parse_raw_integer`.  On an early return `length` keeps the
value it had. -/
def parse_raw_integer (MAX_LENGTH : Nat) (raw_integer : List Char)
    (bigint : BigInteger) : BigInteger × error_t :=
  match parse_raw_loop MAX_LENGTH raw_integer 0 bigint.data with
  | (i, data, EXIT_OK) =>
    if i = 0 then ({ bigint with length := i, data := data }, EXIT_INVALID_NUMBER)
    else ({ bigint with length := i, data := data }, EXIT_OK)
  | (_, data, e) => ({ bigint with data := data }, e)

/-- The function `create_big_integer`: the returned pair is the BigInteger and
the value left in `*error`. -/
def create_big_integer (MAX_LENGTH : Nat) (raw_integer : List Char) :
    BigInteger × error_t :=
  let bigint : BigInteger := { length := 0, negative := false, data := fun _ => 0 }
  let r :=
    match raw_integer with
    | [] => parse_raw_integer MAX_LENGTH [] bigint
    | c :: rest =>
      if c = '-' then parse_raw_integer MAX_LENGTH rest { bigint with negative := true }
      else parse_raw_integer MAX_LENGTH (c :: rest) bigint
  if r.2 ≠ EXIT_OK then r else (reverse_big_integer_data r.1, EXIT_OK)

/-- The digit loop of `compare_big_integers`: `k` passes are left, `i` is the
loop counter. -/
def compare_digits (a b : BigInteger) (absolute : Bool) : Nat → Nat → Int
  | 0, _ => 0
  | k + 1, i =>
    if a.data i > b.data i then (if absolute || !a.negative then 1 else -1)
    else if a.data i < b.data i then (if absolute || !a.negative then -1 else 1)
    else compare_digits a b absolute k (i + 1)

/-- The function `compare_big_integers`. -/
def compare_big_integers (a b : BigInteger) (absolute : Bool) : Int :=
  if a.length > b.length then (if absolute || !a.negative then 1 else -1)
  else if a.length < b.length then (if absolute || !b.negative then -1 else 1)
  else if !absolute && (!a.negative && b.negative) then 1
  else if !absolute && (a.negative && !b.negative) then -1
  else compare_digits a b absolute a.length 0

/-- One pass of the digit loop of `subtract_big_integers`; the state is
`dest` and `carry`. -/
def subtract_step (src : BigInteger) (src_factor dest_factor : Int)
    (st : BigInteger × Int) (i : Nat) : BigInteger × Int :=
  let sum := src.data i * src_factor + st.1.data i * dest_factor + st.2
  if sum < 0 then ({ st.1 with data := store st.1.data i (sum + 10) }, -1)
  else ({ st.1 with data := store st.1.data i sum }, 0)

/-- The sign swap at the head of `subtract_big_integers`: the operands after
the block and the flag `swapped_sign`. -/
def subtract_swap (src dest : BigInteger) : BigInteger × BigInteger × Bool :=
  if src.negative then
    -- negative = src, positive = dest
    if compare_big_integers src dest true > 0 then
      ({ src with negative := false }, { dest with negative := true }, true)
    else (src, dest, false)
  else
    -- negative = dest, positive = src
    if compare_big_integers dest src true > 0 then
      ({ src with negative := true }, { dest with negative := false }, true)
    else (src, dest, false)

/-- The digit loop of `subtract_big_integers` on the operands as they are after
the sign swap: the destination and the final `carry`. -/
def subtract_loop (src dest : BigInteger) (max_length : Nat) : BigInteger × Int :=
  let src_factor : Int := if src.negative then -1 else 1
  let dest_factor : Int := if dest.negative then -1 else 1
  (List.range max_length).foldl (subtract_step src src_factor dest_factor) (dest, 0)

/-- The function `subtract_big_integers`; returns the new `src`, the new `dest`
and the status. -/
def subtract_big_integers (src dest : BigInteger) :
    BigInteger × BigInteger × error_t :=
  let max_length := if src.length > dest.length then src.length else dest.length
  let sw := subtract_swap src dest
  let src1 := sw.1
  let dest1 := sw.2.1
  let swapped_sign := sw.2.2
  let dest2 := (subtract_loop src1 dest1 max_length).1
  let dest3 := { dest2 with length := max_length }
  if swapped_sign then
    ({ src1 with negative := !src1.negative }, { dest3 with negative := true }, EXIT_OK)
  else (src1, { dest3 with negative := false }, EXIT_OK)

/-- One pass of the digit loop of `add_big_integers`; the state is `dest` and
`carry`. -/
def add_step (src : BigInteger) (st : BigInteger × Int) (i : Nat) : BigInteger × Int :=
  let sum := src.data i + st.1.data i + st.2
  let carry := sum.tdiv 10
  let digit := sum.tmod 10
  let dest := { st.1 with data := store st.1.data i digit }
  (if digit ≠ 0 then { dest with length := i + 1 } else dest, carry)

/-- The digit loop of `add_big_integers`. -/
def add_loop (src dest : BigInteger) (max_length : Nat) : BigInteger × Int :=
  (List.range max_length).foldl (add_step src) (dest, 0)

/-- The function `add_big_integers`; returns the new `src`, the new `dest` and
the status. -/
def add_big_integers (MAX_LENGTH : Nat) (src dest : BigInteger) (absolute : Bool) :
    BigInteger × BigInteger × error_t :=
  if src.length = 1 ∧ src.data (src.length - 1) = 0 then (src, dest, EXIT_OK)
  else if dest.length = 1 ∧ dest.data (dest.length - 1) = 0 then
    (src,
     { length := src.length,
       negative := if absolute then dest.negative else src.negative,
       data := memmove dest.data 0 src.data src.length },
     EXIT_OK)
  else if !absolute && (src.negative ^^ dest.negative) then
    subtract_big_integers src dest
  else
    let max_length := if src.length > dest.length then src.length else dest.length
    let r := add_loop src dest max_length
    let dest1 := r.1
    let carry := r.2
    let i := max_length
    if carry ≠ 0 then
      if i + 1 > MAX_LENGTH then (src, dest1, EXIT_NUMBER_TOO_BIG)
      else (src, { dest1 with length := i + 1, data := store dest1.data i carry }, EXIT_OK)
    else (src, dest1, EXIT_OK)

/-- The `for` loop of `scale_big_integer`: `k` passes are left.  Returns the
final `src`, `dest` and the status. -/
def scale_loop (MAX_LENGTH : Nat) :
    Nat → BigInteger → BigInteger → BigInteger × BigInteger × error_t
  | 0, src, dest => (src, dest, EXIT_OK)
  | k + 1, src, dest =>
    let r := add_big_integers MAX_LENGTH src dest true
    if r.2.2 ≠ EXIT_OK then r else scale_loop MAX_LENGTH k r.1 r.2.1

/-- The function `scale_big_integer`; returns the new BigInteger and the value
left in `*error`. -/
def scale_big_integer (MAX_LENGTH : Nat) (src : BigInteger) (scale : Int) :
    BigInteger × error_t :=
  let r := create_big_integer MAX_LENGTH [Char.ofNat 48]
  if r.2 ≠ EXIT_OK ∨ scale = 0 then r
  else
    let s := scale_loop MAX_LENGTH scale.toNat src r.1
    (s.2.1, s.2.2)

/-- The shift in `multiply_big_integers`: `memmove(data + i, data, length)`,
`memset(data, 0, i)`, `length += i`. -/
def shift_left (scaled : BigInteger) (i : Nat) : BigInteger :=
  { scaled with
    data := memset_zero (memmove scaled.data i scaled.data scaled.length) i,
    length := scaled.length + i }

/-- The `for` loop of `multiply_big_integers`: `k` passes are left, `i` is the
loop counter. -/
def multiply_loop (MAX_LENGTH : Nat) (a b : BigInteger) :
    Nat → Nat → BigInteger → BigInteger × error_t
  | 0, _, dest => (dest, EXIT_OK)
  | k + 1, i, dest =>
    let sc := scale_big_integer MAX_LENGTH b (a.data i)
    if sc.2 ≠ EXIT_OK then (dest, sc.2)
    else if sc.1.length + i > MAX_LENGTH then (dest, EXIT_NUMBER_TOO_BIG)
    else
      let scaled := shift_left sc.1 i
      let r := add_big_integers MAX_LENGTH scaled dest true
      if r.2.2 ≠ EXIT_OK then (r.2.1, r.2.2)
      else multiply_loop MAX_LENGTH a b k (i + 1) r.2.1

/-- The function `multiply_big_integers`. -/
def multiply_big_integers (MAX_LENGTH : Nat) (a b : BigInteger) :
    BigInteger × error_t :=
  let r := create_big_integer MAX_LENGTH [Char.ofNat 48]
  if r.2 ≠ EXIT_OK then r
  else
    let l := multiply_loop MAX_LENGTH a b a.length 0 r.1
    if l.2 ≠ EXIT_OK then l
    else
      let one_negative := !(a.negative && b.negative) && (a.negative || b.negative)
      (if one_negative then { l.1 with negative := true } else l.1, EXIT_OK)

/-- The function `create_matrix` (allocation succeeds): every cell is NULL. -/
def create_matrix (rows columns : Nat) : Matrix :=
  { rows := rows, columns := columns, data := fun _ _ => none }

/-- The assignment `result->data[row][col] = bigint`. -/
def set_cell (m : Matrix) (row col : Nat) (bigint : BigInteger) : Matrix :=
  { m with data := fun r c => if r = row ∧ c = col then some bigint else m.data r c }

/-- The innermost loop of `multiply_matrices` (counter `i`, `k` passes left).
The result is `none` when a cell of `a` or `b` that is read is NULL. -/
def cell_loop (MAX_LENGTH : Nat) (a b : Matrix) (row col : Nat) :
    Nat → Nat → BigInteger → Option (BigInteger × error_t)
  | 0, _, bigint => some (bigint, EXIT_OK)
  | k + 1, i, bigint =>
    match a.data row i, b.data i col with
    | some x, some y =>
      let p := multiply_big_integers MAX_LENGTH x y
      if p.2 ≠ EXIT_OK then some (bigint, p.2)
      else
        let r := add_big_integers MAX_LENGTH p.1 bigint false
        if r.2.2 ≠ EXIT_OK then some (r.2.1, r.2.2)
        else cell_loop MAX_LENGTH a b row col k (i + 1) r.2.1
    | _, _ => none

/-- The loop over `col` of `multiply_matrices`. -/
def col_loop (MAX_LENGTH : Nat) (a b : Matrix) (row : Nat) :
    Nat → Nat → Matrix → Option (Matrix × error_t)
  | 0, _, result => some (result, EXIT_OK)
  | k + 1, col, result =>
    let z := create_big_integer MAX_LENGTH [Char.ofNat 48]
    if z.2 ≠ EXIT_OK then some (result, z.2)
    else
      match cell_loop MAX_LENGTH a b row col a.columns 0 z.1 with
      | none => none
      | some (bigint, error) =>
        if error ≠ EXIT_OK then some (result, error)
        else col_loop MAX_LENGTH a b row k (col + 1) (set_cell result row col bigint)

/-- The loop over `row` of `multiply_matrices`. -/
def row_loop (MAX_LENGTH : Nat) (a b : Matrix) :
    Nat → Nat → Matrix → Option (Matrix × error_t)
  | 0, _, result => some (result, EXIT_OK)
  | k + 1, row, result =>
    match col_loop MAX_LENGTH a b row result.columns 0 result with
    | none => none
    | some (result1, error) =>
      if error ≠ EXIT_OK then some (result1, error)
      else row_loop MAX_LENGTH a b k (row + 1) result1

/-- The function `multiply_matrices`: `error` is the value `*error` holds on
entry (`create_matrix` leaves it alone when the allocation succeeds); the
result is the returned matrix and the value left in `*error`, or `none` when a
NULL cell is dereferenced. -/
def multiply_matrices (MAX_LENGTH : Nat) (a b : Matrix) (error : error_t) :
    Option (Matrix × error_t) :=
  let result := create_matrix a.rows b.columns
  if error ≠ EXIT_OK then some (result, error)
  else row_loop MAX_LENGTH a b result.rows 0 result

/-- The digit loop of `print_matrix` for one cell: `printf("%d", data[i - 1])`
for `i` from `length` down to `1`. -/
def print_digits (bigint : BigInteger) : Nat → List Char
  | 0 => []
  | i + 1 => (Int.repr (bigint.data i)).toList ++ print_digits bigint i

/-- What `print_matrix` writes for one non-NULL cell, after the tab. -/
def print_cell (bigint : BigInteger) : List Char :=
  (if bigint.negative then [Char.ofNat 45] else []) ++ print_digits bigint bigint.length

/-! ## Values and well-formedness -/

/-- The number written by the first `n` digits: `Σ i < n, data[i] * 10^i`. -/
def digits_value (data : Nat → Int) : Nat → Int
  | 0 => 0
  | n + 1 => digits_value data n + data n * 10 ^ n

/-- The magnitude of a BigInteger. -/
def magnitude (b : BigInteger) : Int := digits_value b.data b.length

/-- The signed integer value of a BigInteger. -/
def value (b : BigInteger) : Int := if b.negative then - magnitude b else magnitude b

/-- The buffer invariant: `1 ≤ length ≤ MAX_LENGTH`, every digit of the buffer
is in `0 .. 9`, every digit from `length` on is `0`. -/
def WellFormed (MAX_LENGTH : Nat) (b : BigInteger) : Prop :=
  1 ≤ b.length ∧ b.length ≤ MAX_LENGTH ∧
  (∀ i, i < MAX_LENGTH → 0 ≤ b.data i ∧ b.data i ≤ 9) ∧
  (∀ i, i < MAX_LENGTH → b.length ≤ i → b.data i = 0)

/-- No leading zero digit: a BigInteger of more than one digit has a non-zero
top digit. -/
def NoLeadingZero (b : BigInteger) : Prop :=
  1 < b.length → b.data (b.length - 1) ≠ 0

/-- A canonical BigInteger: the buffer invariant, no leading zero digit, and
zero is not negative. -/
def Canonical (MAX_LENGTH : Nat) (b : BigInteger) : Prop :=
  WellFormed MAX_LENGTH b ∧ NoLeadingZero b ∧
  (b.length = 1 → b.data 0 = 0 → b.negative = false)

instance (MAX_LENGTH : Nat) (b : BigInteger) : Decidable (WellFormed MAX_LENGTH b) := by
  unfold WellFormed; infer_instance

instance (b : BigInteger) : Decidable (NoLeadingZero b) := by
  unfold NoLeadingZero; infer_instance

instance (MAX_LENGTH : Nat) (b : BigInteger) : Decidable (Canonical MAX_LENGTH b) := by
  unfold Canonical; infer_instance

/-- The BigInteger with the given sign whose decimal digits are listed least
significant first. -/
def ofDigits (negative : Bool) (digits : List Int) : BigInteger :=
  { length := digits.length, negative := negative, data := fun i => digits.getD i 0 }

/-- The matrix with the given rows, every cell non-NULL. -/
def ofRows (rows columns : Nat) (cells : List (List BigInteger)) : Matrix :=
  { rows := rows, columns := columns,
    data := fun r c => (cells.getD r []).get? c }

/-! ## Predicates and helper definitions used by the theorems -/

/-- The state of the addition loop after `n` passes on operands whose first
`n` digits are decimal: the carry is `0` or `1`, the digits written so far
together with the carry are the sum of both operands, bytes from `n` on and
the sign are untouched, and `length` is either still the old one (only zeros
written) or one past the highest non-zero digit written. -/
def AddInv (src dest : BigInteger) (n : Nat) (st : BigInteger × Int) : Prop :=
  (st.2 = 0 ∨ st.2 = 1) ∧
  digits_value st.1.data n + st.2 * 10 ^ n
    = digits_value src.data n + digits_value dest.data n ∧
  (∀ i, i < n → 0 ≤ st.1.data i ∧ st.1.data i ≤ 9) ∧
  (∀ i, n ≤ i → st.1.data i = dest.data i) ∧
  st.1.negative = dest.negative ∧
  ((st.1.length = dest.length ∧ ∀ i, i < n → st.1.data i = 0) ∨
   (1 ≤ st.1.length ∧ st.1.length ≤ n ∧ st.1.data (st.1.length - 1) ≠ 0 ∧
      ∀ i, st.1.length ≤ i → i < n → st.1.data i = 0))

/-- The top digit `data[length - 1]` is not zero. -/
def TopNonzero (b : BigInteger) : Prop := b.data (b.length - 1) ≠ 0

/-- The postcondition shared by every path of `add_big_integers` that adds
magnitudes. -/
def AddPost (M : Nat) (src dest : BigInteger) (r : BigInteger × BigInteger × error_t) :
    Prop :=
  r.1 = src ∧
  (r.2.2 = EXIT_NUMBER_TOO_BIG ↔ 10 ^ M ≤ magnitude src + magnitude dest) ∧
  (r.2.2 = EXIT_OK ∨ r.2.2 = EXIT_NUMBER_TOO_BIG) ∧
  (r.2.2 = EXIT_OK →
    WellFormed M r.2.1 ∧ magnitude r.2.1 = magnitude src + magnitude dest ∧
    r.2.1.negative = dest.negative ∧
    (TopNonzero src → TopNonzero dest → TopNonzero r.2.1) ∧
    (NoLeadingZero src → NoLeadingZero dest → NoLeadingZero r.2.1))

/-- The BigInteger `create_big_integer("0")` returns. -/
def zero_big_integer : BigInteger := { length := 1, negative := false, data := fun _ => 0 }

/-- The text handed to `create_big_integer`: an optional `-` and the digits. -/
def signed_text (neg : Bool) (digits : List Char) : List Char :=
  (if neg then [Char.ofNat 45] else []) ++ digits

/-- The canonical form of a decimal text, written after the words of section 8
of the specification (sign dropped for zero, no leading zero digits, `0` for
zero).  It is the yardstick `print_cell` is compared with; the source has no
function that computes it. -/
def canonical_form (text : List Char) : List Char :=
  let neg : Bool := text.head? == some '-'
  let digits := if neg then text.tail else text
  let stripped := digits.dropWhile (fun c => c == '0')
  if stripped.isEmpty then ['0'] else (if neg then ['-'] else []) ++ stripped

/-- What a caller sees of a matrix product: the status, the dimensions and the
value of each cell (`none` for a NULL cell), row by row. -/
def observe (r : Option (Matrix × error_t)) :
    Option (error_t × Nat × Nat × List (List (Option Int))) :=
  r.map fun p =>
    (p.2, p.1.rows, p.1.columns,
      (List.range p.1.rows).map fun row =>
        (List.range p.1.columns).map fun col => (p.1.data row col).map value)

/-- The buffer invariant of the digit buffer: `length ≤ MAX_LENGTH`, every digit
of the buffer is in `0 .. 9`, every digit at an index `≥ length` is `0`. -/
def BufferInvariant (M : Nat) (b : BigInteger) : Prop :=
  b.length ≤ M ∧
  (∀ i, i < M → 0 ≤ b.data i ∧ b.data i ≤ 9) ∧
  (∀ i, i < M → b.length ≤ i → b.data i = 0)

instance (M : Nat) (b : BigInteger) : Decidable (BufferInvariant M b) := by
  unfold BufferInvariant; infer_instance

/-- Two results are the same outcome: the same status and, on `EXIT_OK`, the
same negative flag, the same length and the same digits in the buffer. -/
def SameOutcome (M : Nat) (r1 r2 : BigInteger × error_t) : Prop :=
  r1.2 = r2.2 ∧
  (r1.2 = EXIT_OK →
    r1.1.negative = r2.1.negative ∧ r1.1.length = r2.1.length ∧
    ∀ i, i < M → r1.1.data i = r2.1.data i)

/-- A BigInteger whose magnitude is not zero has a non-zero top digit. -/
def Normal (b : BigInteger) : Prop := magnitude b ≠ 0 → TopNonzero b

/-- The BigInteger `create_big_integer("1")` returns. -/
def one_big_integer : BigInteger :=
  { length := 1, negative := false, data := store (fun _ => 0) 0 1 }

/-- The accumulation of one result cell, as `multiply_matrices` runs it: the
innermost loop started on a fresh zero. -/
def cell_result (M : Nat) (a b : Matrix) (row col : Nat) : Option (BigInteger × error_t) :=
  cell_loop M a b row col a.columns 0 zero_big_integer

/-- A matrix cell that holds a canonical BigInteger with the negative flag
clear. -/
def NonNegativeCell (M : Nat) (o : Option BigInteger) : Prop :=
  match o with
  | some x => Canonical M x ∧ x.negative = false
  | none => False

instance (M : Nat) (o : Option BigInteger) : Decidable (NonNegativeCell M o) := by
  unfold NonNegativeCell
  cases o <;> infer_instance

/-- The value of a matrix cell (`0` for a NULL cell). -/
def cell_value (o : Option BigInteger) : Int :=
  match o with
  | some x => value x
  | none => 0

/-- The sum `Σ k < n, value(a[row][k]) * value(b[k][col])`. -/
def cell_sum (a b : Matrix) (row col : Nat) : Nat → Int
  | 0 => 0
  | n + 1 => cell_sum a b row col n + cell_value (a.data row n) * cell_value (b.data n col)

/-! ## Arithmetic of digit sequences -/

theorem store_same (data : Nat → Int) (i : Nat) (v : Int) : store data i v i = v := by
  simp [store]

theorem store_other (data : Nat → Int) (i j : Nat) (v : Int) (h : j ≠ i) :
    store data i v j = data j := by
  simp [store, h]

theorem digits_value_congr (d e : Nat → Int) (n : Nat)
    (h : ∀ i, i < n → d i = e i) : digits_value d n = digits_value e n := by
  induction n with
  | zero => rfl
  | succ n ih =>
    simp only [digits_value]
    rw [ih (fun i hi => h i (Nat.lt_succ_of_lt hi)), h n (Nat.lt_succ_self n)]

theorem digits_value_nonneg (d : Nat → Int) (n : Nat)
    (h : ∀ i, i < n → 0 ≤ d i) : 0 ≤ digits_value d n := by
  induction n with
  | zero => simp [digits_value]
  | succ n ih =>
    simp only [digits_value]
    have h1 := ih (fun i hi => h i (Nat.lt_succ_of_lt hi))
    have h2 := h n (Nat.lt_succ_self n)
    have h3 : (0 : Int) ≤ 10 ^ n := by positivity
    have h4 := mul_nonneg h2 h3
    omega

theorem digits_value_lt (d : Nat → Int) (n : Nat)
    (h : ∀ i, i < n → d i ≤ 9) : digits_value d n < 10 ^ n := by
  induction n with
  | zero => simp [digits_value]
  | succ n ih =>
    simp only [digits_value]
    have h1 := ih (fun i hi => h i (Nat.lt_succ_of_lt hi))
    have h2 := h n (Nat.lt_succ_self n)
    have h3 : (0 : Int) < 10 ^ n := by positivity
    have h4 : d n * 10 ^ n ≤ 9 * 10 ^ n := mul_le_mul_of_nonneg_right h2 (le_of_lt h3)
    rw [pow_succ]
    omega

theorem digits_value_zero_ext (d : Nat → Int) (m n : Nat) (hmn : m ≤ n)
    (h : ∀ i, m ≤ i → i < n → d i = 0) : digits_value d n = digits_value d m := by
  induction n with
  | zero =>
    have : m = 0 := by omega
    subst this; rfl
  | succ n ih =>
    rcases Nat.eq_or_lt_of_le hmn with h1 | h1
    · rw [h1]
    · have h2 : m ≤ n := by omega
      simp only [digits_value]
      rw [ih h2 (fun i hi hin => h i hi (Nat.lt_succ_of_lt hin)), h n h2 (Nat.lt_succ_self n)]
      simp

theorem digits_value_all_zero (d : Nat → Int) (n : Nat)
    (h : ∀ i, i < n → d i = 0) : digits_value d n = 0 := by
  have := digits_value_zero_ext d 0 n (Nat.zero_le n) (fun i _ hi => h i hi)
  simpa [digits_value] using this

theorem digits_value_mono (d : Nat → Int) (m n : Nat) (hmn : m ≤ n)
    (h : ∀ i, i < n → 0 ≤ d i) : digits_value d m ≤ digits_value d n := by
  induction n with
  | zero =>
    have : m = 0 := by omega
    subst this; exact le_refl _
  | succ n ih =>
    rcases Nat.eq_or_lt_of_le hmn with h1 | h1
    · rw [h1]
    · have h2 : m ≤ n := by omega
      simp only [digits_value]
      have h3 := ih h2 (fun i hi => h i (Nat.lt_succ_of_lt hi))
      have h4 := h n (Nat.lt_succ_self n)
      have h5 : (0 : Int) ≤ 10 ^ n := by positivity
      have h6 := mul_nonneg h4 h5
      omega

theorem digits_value_top (d : Nat → Int) (n : Nat) (hn : 0 < n)
    (h : ∀ i, i < n → 0 ≤ d i) (htop : d (n - 1) ≠ 0) :
    10 ^ (n - 1) ≤ digits_value d n := by
  obtain ⟨k, rfl⟩ : ∃ k, n = k + 1 := ⟨n - 1, by omega⟩
  simp only [digits_value, Nat.add_sub_cancel] at *
  have h1 := digits_value_nonneg d k (fun i hi => h i (Nat.lt_succ_of_lt hi))
  have h2 := h k (Nat.lt_succ_self k)
  have h3 : 1 ≤ d k := by omega
  have h5 : (0 : Int) ≤ 10 ^ k := by positivity
  have h6 : 1 * 10 ^ k ≤ d k * 10 ^ k := mul_le_mul_of_nonneg_right h3 h5
  omega

/-- A digit of a sequence is bounded by the value: `d i * 10^i ≤ value`. -/
theorem digits_value_ge_digit (d : Nat → Int) (n i : Nat) (hi : i < n)
    (h : ∀ j, j < n → 0 ≤ d j) : digits_value d i + d i * 10 ^ i ≤ digits_value d n := by
  have := digits_value_mono d (i + 1) n hi h
  simpa [digits_value] using this

/-! ## The digit loop of `add_big_integers` -/

theorem add_loop_succ (src dest : BigInteger) (n : Nat) :
    add_loop src dest (n + 1) = add_step src (add_loop src dest n) n := by
  simp [add_loop, List.range_succ, List.foldl_append]

theorem add_step_inv (src dest : BigInteger) (n : Nat) (st : BigInteger × Int)
    (hs : 0 ≤ src.data n ∧ src.data n ≤ 9) (hd : 0 ≤ dest.data n ∧ dest.data n ≤ 9)
    (h : AddInv src dest n st) : AddInv src dest (n + 1) (add_step src st n) := by
  obtain ⟨hc, hv, hr, hf, hneg, hl⟩ := h
  have hdn : st.1.data n = dest.data n := hf n (le_refl n)
  have hsum0 : 0 ≤ src.data n + st.1.data n + st.2 := by rcases hc with h | h <;> omega
  have hsum1 : src.data n + st.1.data n + st.2 ≤ 19 := by rcases hc with h | h <;> omega
  have hdiv : (src.data n + st.1.data n + st.2).tdiv 10 = (src.data n + st.1.data n + st.2) / 10 :=
    Int.tdiv_eq_ediv hsum0 (by norm_num)
  have hmod : (src.data n + st.1.data n + st.2).tmod 10 = (src.data n + st.1.data n + st.2) % 10 :=
    Int.tmod_eq_emod hsum0 (by norm_num)
  -- the data and the carry of the new state
  have hdata : (add_step src st n).1.data
      = store st.1.data n ((src.data n + st.1.data n + st.2) % 10) := by
    simp only [add_step, hmod]; split <;> rfl
  have hcarry : (add_step src st n).2 = (src.data n + st.1.data n + st.2) / 10 := by
    simp only [add_step, hdiv]
  have hnegn : (add_step src st n).1.negative = st.1.negative := by
    simp only [add_step]; split <;> rfl
  have hlen : (add_step src st n).1.length
      = if (src.data n + st.1.data n + st.2) % 10 ≠ 0 then n + 1 else st.1.length := by
    simp only [add_step, hmod]; split <;> rfl
  refine ⟨?_, ?_, ?_, ?_, ?_, ?_⟩
  · rw [hcarry]; omega
  · rw [hcarry, hdata]
    simp only [digits_value, store_same]
    rw [digits_value_congr (store st.1.data n _) st.1.data n
      (fun i hi => store_other _ _ _ _ (Nat.ne_of_lt hi))]
    have hq := Int.emod_add_ediv (src.data n + st.1.data n + st.2) 10
    rw [pow_succ]
    linear_combination hv + (10 : Int) ^ n * hq + (10 : Int) ^ n * hdn
  · intro i hi
    rw [hdata]
    by_cases hin : i = n
    · subst hin; rw [store_same]; omega
    · rw [store_other _ _ _ _ hin]; exact hr i (by omega)
  · intro i hi
    rw [hdata, store_other _ _ _ _ (by omega)]
    exact hf i (by omega)
  · rw [hnegn, hneg]
  · rw [hlen, hdata]
    by_cases hz : (src.data n + st.1.data n + st.2) % 10 = 0
    · simp only [hz, ne_eq, not_true_eq_false, if_false]
      rcases hl with ⟨h1, h2⟩ | ⟨h1, h2, h3, h4⟩
      · left
        refine ⟨h1, fun i hi => ?_⟩
        by_cases hin : i = n
        · subst hin; rw [store_same]
        · rw [store_other _ _ _ _ hin]; exact h2 i (by omega)
      · right
        refine ⟨h1, by omega, ?_, fun i hi hin => ?_⟩
        · rw [store_other _ _ _ _ (by omega)]; exact h3
        · by_cases hin2 : i = n
          · subst hin2; rw [store_same]
          · rw [store_other _ _ _ _ hin2]; exact h4 i hi (by omega)
    · right
      simp only [hz, ne_eq, not_false_eq_true, if_true]
      refine ⟨by omega, le_refl _, ?_, fun i hi hin => by omega⟩
      simp only [Nat.add_sub_cancel, store_same]
      exact hz

theorem add_loop_inv (src dest : BigInteger) (n : Nat)
    (hs : ∀ i, i < n → 0 ≤ src.data i ∧ src.data i ≤ 9)
    (hd : ∀ i, i < n → 0 ≤ dest.data i ∧ dest.data i ≤ 9) :
    AddInv src dest n (add_loop src dest n) := by
  induction n with
  | zero =>
    simp [AddInv, add_loop, digits_value]
  | succ n ih =>
    rw [add_loop_succ]
    exact add_step_inv src dest n _ (hs n (Nat.lt_succ_self n)) (hd n (Nat.lt_succ_self n))
      (ih (fun i hi => hs i (Nat.lt_succ_of_lt hi)) (fun i hi => hd i (Nat.lt_succ_of_lt hi)))

/-! ## Well-formed operands -/

theorem wf_digits_value (M : Nat) (b : BigInteger) (h : WellFormed M b) (n : Nat)
    (h1 : b.length ≤ n) (h2 : n ≤ M) : digits_value b.data n = magnitude b := by
  obtain ⟨_, _, _, h6⟩ := h
  exact digits_value_zero_ext b.data b.length n h1 (fun i hi hin => h6 i (by omega) hi)

theorem wf_magnitude_nonneg (M : Nat) (b : BigInteger) (h : WellFormed M b) :
    0 ≤ magnitude b := by
  obtain ⟨_, h4, h5, _⟩ := h
  exact digits_value_nonneg b.data b.length (fun i hi => (h5 i (by omega)).1)

theorem wf_magnitude_lt_length (M : Nat) (b : BigInteger) (h : WellFormed M b) :
    magnitude b < 10 ^ b.length := by
  obtain ⟨_, h4, h5, _⟩ := h
  exact digits_value_lt b.data b.length (fun i hi => (h5 i (by omega)).2)

theorem pow_ten_mono (m n : Nat) (h : m ≤ n) : (10 : Int) ^ m ≤ 10 ^ n :=
  pow_le_pow_right₀ (by norm_num) h

theorem wf_magnitude_lt (M : Nat) (b : BigInteger) (h : WellFormed M b) :
    magnitude b < 10 ^ M :=
  lt_of_lt_of_le (wf_magnitude_lt_length M b h) (pow_ten_mono _ _ h.2.1)

theorem wf_top_le_magnitude (M : Nat) (b : BigInteger) (h : WellFormed M b)
    (ht : TopNonzero b) : 10 ^ (b.length - 1) ≤ magnitude b := by
  obtain ⟨h3, h4, h5, _⟩ := h
  exact digits_value_top b.data b.length h3 (fun i hi => (h5 i (by omega)).1) ht

theorem wf_top_magnitude_pos (M : Nat) (b : BigInteger) (h : WellFormed M b)
    (ht : TopNonzero b) : 0 < magnitude b :=
  lt_of_lt_of_le (by positivity) (wf_top_le_magnitude M b h ht)

theorem add_digitwise_post (M : Nat) (src dest : BigInteger) (n : Nat)
    (hs : WellFormed M src) (hd : WellFormed M dest)
    (hsz : ¬ (src.length = 1 ∧ src.data (src.length - 1) = 0))
    (hdz : ¬ (dest.length = 1 ∧ dest.data (dest.length - 1) = 0))
    (hsl : src.length ≤ n) (hdl : dest.length ≤ n) (hnM : n ≤ M) :
    AddPost M src dest
      (if (add_loop src dest n).2 ≠ 0 then
        (if n + 1 > M then (src, (add_loop src dest n).1, EXIT_NUMBER_TOO_BIG)
         else (src, { (add_loop src dest n).1 with
                      length := n + 1,
                      data := store (add_loop src dest n).1.data n (add_loop src dest n).2 },
               EXIT_OK))
       else (src, (add_loop src dest n).1, EXIT_OK)) := by
  have hn1 : 1 ≤ n := by have := hs.1; omega
  have hinv :=
    add_loop_inv src dest n (fun i hi => hs.2.2.1 i (by omega)) (fun i hi => hd.2.2.1 i (by omega))
  generalize add_loop src dest n = r at hinv ⊢
  obtain ⟨hc, hv, hr, hf, hneg, hl⟩ := hinv
  rw [wf_digits_value M src hs n hsl hnM, wf_digits_value M dest hd n hdl hnM] at hv
  have hdv0 := digits_value_nonneg r.1.data n (fun i hi => (hr i hi).1)
  have hdv1 := digits_value_lt r.1.data n (fun i hi => (hr i hi).2)
  have hms := wf_magnitude_lt_length M src hs
  have hmd := wf_magnitude_lt_length M dest hd
  have hps := pow_ten_mono _ _ hsl
  have hpd := pow_ten_mono _ _ hdl
  have hpn := pow_ten_mono _ _ hnM
  have hpn1 : (0 : Int) < 10 ^ n := by positivity
  -- a top digit that is not zero: both operands are non-zero on this path
  have htops : NoLeadingZero src → TopNonzero src := by
    intro hnl
    by_cases h1 : src.length = 1
    · intro h0; exact hsz ⟨h1, h0⟩
    · exact hnl (by have := hs.1; omega)
  have htopd : NoLeadingZero dest → TopNonzero dest := by
    intro hnl
    by_cases h1 : dest.length = 1
    · intro h0; exact hdz ⟨h1, h0⟩
    · exact hnl (by have := hd.1; omega)
  by_cases hc0 : r.2 = 0
  · -- no carry left
    simp only [hc0, ne_eq, not_true_eq_false, if_false]
    rw [hc0] at hv
    simp only [zero_mul, add_zero] at hv
    have htail : ∀ i, i < M → r.1.length ≤ i → r.1.data i = 0 := by
      intro i hiM hi
      by_cases hin : i < n
      · rcases hl with ⟨_, h2⟩ | ⟨_, _, _, h4⟩
        · exact h2 i hin
        · exact h4 i hi hin
      · rw [hf i (by omega)]
        exact hd.2.2.2 i hiM (by omega)
    have hlen : 1 ≤ r.1.length ∧ r.1.length ≤ n := by
      rcases hl with ⟨h1, _⟩ | ⟨h1, h2, _, _⟩
      · rw [h1]; exact ⟨hd.1, hdl⟩
      · exact ⟨h1, h2⟩
    have hwf : WellFormed M r.1 := by
      refine ⟨hlen.1, by omega, fun i hi => ?_, htail⟩
      by_cases hin : i < n
      · exact hr i hin
      · rw [hf i (by omega)]; exact hd.2.2.1 i hi
    have hmag : magnitude r.1 = magnitude src + magnitude dest := by
      rw [← hv]
      exact (digits_value_zero_ext r.1.data r.1.length n hlen.2
        (fun i hi hin => htail i (by omega) hi)).symm
    have htop : TopNonzero src → TopNonzero r.1 := by
      intro hts
      have hpos := wf_top_magnitude_pos M src hs hts
      have hd0 := wf_magnitude_nonneg M dest hd
      rcases hl with ⟨_, h2⟩ | ⟨_, _, h3, _⟩
      · have := digits_value_all_zero r.1.data n h2
        omega
      · exact h3
    refine ⟨rfl, ?_, Or.inl rfl, fun _ => ⟨hwf, hmag, hneg, fun h1 _ => htop h1, ?_⟩⟩
    · constructor
      · intro h; cases h
      · intro h; omega
    · intro h1 _ _
      exact htop (htops h1)
  · -- a carry is left
    have hc1 : r.2 = 1 := by rcases hc with h | h; exact absurd h hc0; exact h
    simp only [hc1, ne_eq, one_ne_zero, not_false_eq_true, if_true]
    rw [hc1] at hv
    simp only [one_mul] at hv
    by_cases hbig : n + 1 > M
    · simp only [hbig, if_true]
      have hnM2 : n = M := by omega
      refine ⟨rfl, ?_, Or.inr rfl, fun h => by cases h⟩
      constructor
      · intro _; rw [← hnM2]; omega
      · intro _; rfl
    · simp only [hbig, if_false]
      have hp1 : (10 : Int) ^ (n + 1) ≤ 10 ^ M := pow_ten_mono _ _ (by omega)
      rw [pow_succ] at hp1
      refine ⟨rfl, ?_, Or.inl rfl, fun _ => ⟨?_, ?_, hneg, fun _ _ => ?_, fun _ _ _ => ?_⟩⟩
      · constructor
        · intro h; cases h
        · intro h; omega
      · refine ⟨by simp, by simp; omega, fun i hi => ?_, fun i hi hin => ?_⟩
        · simp only
          by_cases hin : i = n
          · subst hin; rw [store_same]; omega
          · rw [store_other _ _ _ _ hin]
            by_cases hin2 : i < n
            · exact hr i hin2
            · rw [hf i (by omega)]; exact hd.2.2.1 i hi
        · simp only at hin ⊢
          rw [store_other _ _ _ _ (by omega), hf i (by omega)]
          exact hd.2.2.2 i hi (by omega)
      · show digits_value (store r.1.data n 1) (n + 1) = magnitude src + magnitude dest
        simp only [digits_value, store_same]
        rw [digits_value_congr (store r.1.data n 1) r.1.data n
          (fun i hi => store_other _ _ _ _ (Nat.ne_of_lt hi))]
        omega
      · simp [TopNonzero, store_same]
      · simp [TopNonzero, store_same]

theorem memmove_zero_off (dst src : Nat → Int) (n j : Nat) :
    memmove dst 0 src n j = if j < n then src j else dst j := by
  simp [memmove]

theorem magnitude_of_zero (b : BigInteger) (h : b.length = 1 ∧ b.data (b.length - 1) = 0) :
    magnitude b = 0 := by
  obtain ⟨h1, h2⟩ := h
  rw [h1] at h2
  simp [magnitude, h1, digits_value, h2]

/-- Every path of `add_big_integers` that adds magnitudes (`absolute`, or equal
sign flags) on well-formed operands: `src` is untouched, the call fails with
`EXIT_NUMBER_TOO_BIG` exactly when the sum needs more than `MAX_LENGTH`
digits, and otherwise `dest` is well formed and holds the sum. -/
theorem add_big_integers_post (M : Nat) (src dest : BigInteger) (absolute : Bool)
    (hs : WellFormed M src) (hd : WellFormed M dest)
    (hpath : absolute = true ∨ src.negative = dest.negative) :
    AddPost M src dest (add_big_integers M src dest absolute) := by
  unfold add_big_integers
  have hmd := wf_magnitude_lt M dest hd
  have hms := wf_magnitude_lt M src hs
  by_cases hsz : src.length = 1 ∧ src.data (src.length - 1) = 0
  · rw [if_pos hsz]
    have h0 := magnitude_of_zero src hsz
    refine ⟨rfl, ?_, Or.inl rfl, fun _ => ⟨hd, by simp [h0], rfl, fun _ h => h, fun _ h => h⟩⟩
    constructor
    · intro h; cases h
    · intro h; simp only at h; omega
  · rw [if_neg hsz]
    by_cases hdz : dest.length = 1 ∧ dest.data (dest.length - 1) = 0
    · rw [if_pos hdz]
      have h0 := magnitude_of_zero dest hdz
      refine ⟨rfl, ?_, Or.inl rfl, fun _ => ⟨?_, ?_, ?_, fun h _ => ?_, fun h _ => ?_⟩⟩
      · constructor
        · intro h; cases h
        · intro h; simp only at h; omega
      · refine ⟨hs.1, hs.2.1, fun i hi => ?_, fun i hi hin => ?_⟩
        · simp only [memmove_zero_off]
          split
          · exact hs.2.2.1 i hi
          · exact hd.2.2.1 i hi
        · simp only [memmove_zero_off] at hin ⊢
          rw [if_neg (by omega)]
          exact hd.2.2.2 i hi (by have := hs.1; omega)
      · show digits_value (memmove dest.data 0 src.data src.length) src.length = _
        rw [digits_value_congr _ src.data src.length
          (fun i hi => by rw [memmove_zero_off, if_pos hi]), h0]
        simp [magnitude]
      · simp only
        rcases hpath with h | h
        · simp [h]
        · simp [h]
      · show memmove dest.data 0 src.data src.length (src.length - 1) ≠ 0
        rw [memmove_zero_off, if_pos (by have := hs.1; omega)]
        exact h
      · intro hl
        show memmove dest.data 0 src.data src.length (src.length - 1) ≠ 0
        rw [memmove_zero_off, if_pos (by have := hs.1; omega)]
        exact h hl
    · rw [if_neg hdz]
      have hnot : (!absolute && (src.negative ^^ dest.negative)) = false := by
        rcases hpath with h | h
        · simp [h]
        · simp [h]
      rw [hnot]
      simp only [Bool.false_eq_true, if_false]
      exact add_digitwise_post M src dest _ hs hd hsz hdz
        (by split <;> omega) (by split <;> omega)
        (by have := hs.2.1; have := hd.2.1; split <;> omega)

/-! ## `scale_big_integer` -/

theorem create_big_integer_zero (M : Nat) :
    create_big_integer M [Char.ofNat 48] = (zero_big_integer, EXIT_OK) := by
  have h1 : (Char.ofNat 48).isDigit = true := by decide
  have h2 : digit_value (Char.ofNat 48) = 0 := by decide
  have h3 : ¬ (Char.ofNat 48 = '-') := by decide
  have hst : store (fun _ => (0 : Int)) 0 0 = fun _ => 0 := by
    funext j; simp [store]
  simp [create_big_integer, parse_raw_integer, parse_raw_loop, h1, h2, h3, hst,
    reverse_big_integer_data, zero_big_integer]

theorem zero_big_integer_wf (M : Nat) (hM : 1 ≤ M) : WellFormed M zero_big_integer := by
  refine ⟨le_refl 1, hM, fun i _ => ?_, fun i _ _ => rfl⟩
  simp [zero_big_integer]

theorem zero_big_integer_magnitude : magnitude zero_big_integer = 0 := by
  simp [magnitude, zero_big_integer, digits_value]

/-- The postcondition of the scaling loop: after `k` absolute additions of
`src`, the destination holds `dest + k * src`, or the loop has failed because
that number does not fit. -/
theorem scale_loop_post (M : Nat) (src : BigInteger) (hs : WellFormed M src) :
    ∀ (k : Nat) (dest : BigInteger), WellFormed M dest →
      ((scale_loop M k src dest).2.2 = EXIT_NUMBER_TOO_BIG ↔
          10 ^ M ≤ magnitude dest + (k : Int) * magnitude src) ∧
      ((scale_loop M k src dest).2.2 = EXIT_OK ∨
          (scale_loop M k src dest).2.2 = EXIT_NUMBER_TOO_BIG) ∧
      ((scale_loop M k src dest).2.2 = EXIT_OK →
        WellFormed M (scale_loop M k src dest).2.1 ∧
        magnitude (scale_loop M k src dest).2.1 = magnitude dest + (k : Int) * magnitude src ∧
        (scale_loop M k src dest).2.1.negative = dest.negative ∧
        (NoLeadingZero src → NoLeadingZero dest →
          NoLeadingZero (scale_loop M k src dest).2.1)) := by
  intro k
  induction k with
  | zero =>
    intro dest hd
    have := wf_magnitude_lt M dest hd
    refine ⟨?_, Or.inl rfl, fun _ => ⟨hd, by simp [scale_loop], rfl, fun _ h => h⟩⟩
    simp only [scale_loop]
    constructor
    · intro h; cases h
    · intro h; simp at h; omega
  | succ k ih =>
    intro dest hd
    have hpost := add_big_integers_post M src dest true hs hd (Or.inl rfl)
    have hsrc0 := wf_magnitude_nonneg M src hs
    have hk : (0 : Int) ≤ (k : Int) * magnitude src := mul_nonneg (by positivity) hsrc0
    simp only [scale_loop]
    generalize add_big_integers M src dest true = r at hpost ⊢
    obtain ⟨h1, h2, h3, h4⟩ := hpost
    by_cases hok : r.2.2 = EXIT_OK
    · obtain ⟨hwf, hmag, hneg, _, hnl⟩ := h4 hok
      rw [if_neg (not_not.mpr hok), h1]
      obtain ⟨i1, i2, i3⟩ := ih r.2.1 hwf
      refine ⟨?_, i2, fun h => ?_⟩
      · rw [i1, hmag]; push_cast
        constructor <;> intro h <;> linarith
      · obtain ⟨j1, j2, j3, j4⟩ := i3 h
        refine ⟨j1, ?_, by rw [j3, hneg], fun hx hy => j4 hx (hnl hx hy)⟩
        rw [j2, hmag]; push_cast; ring
    · have hbig : r.2.2 = EXIT_NUMBER_TOO_BIG := by
        rcases h3 with h | h
        · exact absurd h hok
        · exact h
      rw [if_pos hok]
      refine ⟨?_, Or.inr hbig, fun h => absurd h hok⟩
      constructor
      · intro _
        have := h2.1 hbig
        push_cast; linarith
      · intro _; exact hbig

/-- The postcondition of `scale_big_integer` on a well-formed operand and a
digit `0 ≤ scale`: it fails with `EXIT_NUMBER_TOO_BIG` exactly when
`scale * |src|` does not fit, and otherwise returns that product,
non-negative and well formed. -/
theorem scale_big_integer_post (M : Nat) (src : BigInteger) (scale : Int)
    (hs : WellFormed M src) (h0 : 0 ≤ scale) :
    ((scale_big_integer M src scale).2 = EXIT_NUMBER_TOO_BIG ↔
        10 ^ M ≤ scale * magnitude src) ∧
    ((scale_big_integer M src scale).2 = EXIT_OK ∨
        (scale_big_integer M src scale).2 = EXIT_NUMBER_TOO_BIG) ∧
    ((scale_big_integer M src scale).2 = EXIT_OK →
      WellFormed M (scale_big_integer M src scale).1 ∧
      magnitude (scale_big_integer M src scale).1 = scale * magnitude src ∧
      (scale_big_integer M src scale).1.negative = false ∧
      (NoLeadingZero src → NoLeadingZero (scale_big_integer M src scale).1)) := by
  have hM : 1 ≤ M := le_trans hs.1 hs.2.1
  have hz := zero_big_integer_wf M hM
  have hpM : (0 : Int) < 10 ^ M := by positivity
  unfold scale_big_integer
  rw [create_big_integer_zero]
  by_cases hsc : scale = 0
  · rw [if_pos (Or.inr hsc), hsc, zero_mul]
    refine ⟨?_, Or.inl rfl, fun _ => ⟨hz, zero_big_integer_magnitude, rfl, fun _ h => ?_⟩⟩
    · constructor
      · intro h; cases h
      · intro h; omega
    · simp [zero_big_integer] at h
  · rw [if_neg (by simp [hsc])]
    obtain ⟨i1, i2, i3⟩ := scale_loop_post M src hs scale.toNat zero_big_integer hz
    rw [Int.toNat_of_nonneg h0, zero_big_integer_magnitude, zero_add] at i1 i3
    refine ⟨i1, i2, fun h => ?_⟩
    obtain ⟨j1, j2, j3, j4⟩ := i3 h
    refine ⟨j1, j2, j3, fun hx => j4 hx (fun h => ?_)⟩
    simp [zero_big_integer] at h

/-! ## `multiply_big_integers` -/

theorem shift_left_data (scaled : BigInteger) (i j : Nat) :
    (shift_left scaled i).data j =
      if j < i then 0 else if j < i + scaled.length then scaled.data (j - i) else scaled.data j := by
  simp only [shift_left, memset_zero, memmove]
  by_cases h1 : j < i
  · simp [h1]
  · by_cases h2 : j < i + scaled.length
    · simp [h1, h2]
    · simp [h1, h2]

theorem shift_left_digits_value (scaled : BigInteger) (i : Nat) :
    ∀ n, n ≤ scaled.length →
      digits_value (shift_left scaled i).data (i + n) = digits_value scaled.data n * 10 ^ i := by
  intro n
  induction n with
  | zero =>
    intro _
    simp only [Nat.add_zero, digits_value, zero_mul]
    exact digits_value_all_zero _ _ (fun j hj => by rw [shift_left_data, if_pos hj])
  | succ n ih =>
    intro hn
    have h1 : (shift_left scaled i).data (i + n) = scaled.data n := by
      rw [shift_left_data, if_neg (by omega), if_pos (by omega)]
      congr 1; omega
    rw [← Nat.add_assoc]
    simp only [digits_value]
    rw [ih (by omega), h1, pow_add]
    ring

theorem shift_left_magnitude (scaled : BigInteger) (i : Nat) :
    magnitude (shift_left scaled i) = magnitude scaled * 10 ^ i := by
  have := shift_left_digits_value scaled i scaled.length (le_refl _)
  rw [Nat.add_comm] at this
  exact this

theorem shift_left_wf (M : Nat) (scaled : BigInteger) (i : Nat)
    (h : WellFormed M scaled) (hfit : scaled.length + i ≤ M) :
    WellFormed M (shift_left scaled i) := by
  obtain ⟨h1, h2, h3, h4⟩ := h
  refine ⟨?_, hfit, fun j hj => ?_, fun j hj hlen => ?_⟩
  · show 1 ≤ scaled.length + i
    omega
  · rw [shift_left_data]
    split
    · omega
    · split
      · exact h3 _ (by omega)
      · exact h3 j hj
  · have hlen2 : scaled.length + i ≤ j := hlen
    rw [shift_left_data, if_neg (by omega), if_neg (by omega)]
    exact h4 j hj (by omega)

theorem shift_left_negative (scaled : BigInteger) (i : Nat) :
    (shift_left scaled i).negative = scaled.negative := rfl

/-- The weight of one digit of `a` inside `|a| * |b|`. -/
theorem digit_product_le (a : BigInteger) (M : Nat) (ha : WellFormed M a) (i : Nat)
    (hi : i < a.length) (mb : Int) (hmb : 0 ≤ mb) :
    digits_value a.data (i + 1) * mb ≤ magnitude a * mb ∧
    a.data i * mb * 10 ^ i ≤ magnitude a * mb ∧
    a.data i * mb ≤ magnitude a * mb := by
  have hnn : ∀ j, j < a.length → 0 ≤ a.data j := fun j hj => (ha.2.2.1 j (by have := ha.2.1; omega)).1
  have h1 : digits_value a.data (i + 1) ≤ magnitude a :=
    digits_value_mono a.data (i + 1) a.length hi hnn
  have h2 := digits_value_nonneg a.data i (fun j hj => hnn j (by omega))
  have h3 : (1 : Int) ≤ 10 ^ i := one_le_pow₀ (by norm_num)
  have h4 := hnn i hi
  simp only [digits_value] at h1
  have h5 : a.data i * 10 ^ i ≤ magnitude a := by omega
  have h6 : a.data i ≤ a.data i * 10 ^ i := by nlinarith
  refine ⟨?_, ?_, ?_⟩
  · simp only [digits_value]
    exact mul_le_mul_of_nonneg_right h1 hmb
  · have := mul_le_mul_of_nonneg_right h5 hmb
    linarith [this]
  · exact mul_le_mul_of_nonneg_right (le_trans h6 h5) hmb

/-- The postcondition of the multiplication loop.  Entering pass `i` with
`dest = (a mod 10^i) * |b|`, the loop ends with `|a| * |b|` in `dest`, or
fails with `EXIT_NUMBER_TOO_BIG`, and it fails exactly when `|a| * |b|` needs
more than `MAX_LENGTH` digits. -/
theorem multiply_loop_post (M : Nat) (a b : BigInteger)
    (ha : WellFormed M a) (hb : WellFormed M b) (hbl : NoLeadingZero b) :
    ∀ (k i : Nat) (dest : BigInteger), i + k = a.length → WellFormed M dest →
      magnitude dest = digits_value a.data i * magnitude b →
      ((multiply_loop M a b k i dest).2 = EXIT_NUMBER_TOO_BIG ↔
          10 ^ M ≤ magnitude a * magnitude b) ∧
      ((multiply_loop M a b k i dest).2 = EXIT_OK ∨
          (multiply_loop M a b k i dest).2 = EXIT_NUMBER_TOO_BIG) ∧
      ((multiply_loop M a b k i dest).2 = EXIT_OK →
        WellFormed M (multiply_loop M a b k i dest).1 ∧
        magnitude (multiply_loop M a b k i dest).1 = magnitude a * magnitude b ∧
        (multiply_loop M a b k i dest).1.negative = dest.negative) := by
  have hmb := wf_magnitude_nonneg M b hb
  intro k
  induction k with
  | zero =>
    intro i dest hik hd hmag
    have hi : i = a.length := by omega
    subst hi
    have hlt := wf_magnitude_lt M dest hd
    have e : multiply_loop M a b 0 a.length dest = (dest, EXIT_OK) := rfl
    rw [e]
    refine ⟨?_, Or.inl rfl, fun _ => ⟨hd, hmag, rfl⟩⟩
    constructor
    · intro h; cases h
    · intro h
      have : magnitude dest = magnitude a * magnitude b := hmag
      omega
  | succ k ih =>
    intro i dest hik hd hmag
    have hi : i < a.length := by omega
    have hiM : i < M := lt_of_lt_of_le hi ha.2.1
    have hdig := ha.2.2.1 i hiM
    obtain ⟨w1, w2, w3⟩ := digit_product_le a M ha i hi (magnitude b) hmb
    obtain ⟨s1, s2, s3⟩ := scale_big_integer_post M b (a.data i) hb hdig.1
    simp only [multiply_loop]
    generalize scale_big_integer M b (a.data i) = sc at s1 s2 s3 ⊢
    by_cases hsc : sc.2 = EXIT_OK
    · rw [if_neg (not_not.mpr hsc)]
      obtain ⟨t1, t2, t3, t4⟩ := s3 hsc
      by_cases hfit : sc.1.length + i > M
      · rw [if_pos hfit]
        refine ⟨?_, Or.inr rfl, fun h => by cases h⟩
        constructor
        · intro _
          -- more than one digit, so the top digit is not zero
          have htop : TopNonzero sc.1 := t4 hbl (by omega)
          have hge := wf_top_le_magnitude M sc.1 t1 htop
          have hp : (10 : Int) ^ M ≤ 10 ^ (sc.1.length - 1) * 10 ^ i := by
            rw [← pow_add]; exact pow_ten_mono _ _ (by omega)
          have hpi : (0 : Int) ≤ 10 ^ i := by positivity
          have := mul_le_mul_of_nonneg_right hge hpi
          rw [t2] at this
          linarith
        · intro _; rfl
      · rw [if_neg hfit]
        have hswf := shift_left_wf M sc.1 i t1 (by omega)
        have hsmag := shift_left_magnitude sc.1 i
        have hpost := add_big_integers_post M (shift_left sc.1 i) dest true hswf hd (Or.inl rfl)
        generalize add_big_integers M (shift_left sc.1 i) dest true = r at hpost ⊢
        obtain ⟨_, p2, p3, p4⟩ := hpost
        have hsum : magnitude (shift_left sc.1 i) + magnitude dest
            = digits_value a.data (i + 1) * magnitude b := by
          rw [hsmag, t2, hmag]; simp only [digits_value]; ring
        by_cases hok : r.2.2 = EXIT_OK
        · rw [if_neg (not_not.mpr hok)]
          obtain ⟨q1, q2, q3, _⟩ := p4 hok
          obtain ⟨i1, i2, i3⟩ := ih (i + 1) r.2.1 (by omega) q1 (by rw [q2, hsum])
          refine ⟨i1, i2, fun h => ?_⟩
          obtain ⟨j1, j2, j3⟩ := i3 h
          exact ⟨j1, j2, by rw [j3, q3]⟩
        · have hbig : r.2.2 = EXIT_NUMBER_TOO_BIG := by
            rcases p3 with h | h
            · exact absurd h hok
            · exact h
          rw [if_pos hok]
          refine ⟨?_, Or.inr hbig, fun h => absurd h hok⟩
          constructor
          · intro _
            have := p2.1 hbig
            rw [hsum] at this
            linarith
          · intro _; exact hbig
    · have hbig : sc.2 = EXIT_NUMBER_TOO_BIG := by
        rcases s2 with h | h
        · exact absurd h hsc
        · exact h
      rw [if_pos hsc]
      refine ⟨?_, Or.inr hbig, fun h => absurd h hsc⟩
      constructor
      · intro _
        have := s1.1 hbig
        linarith
      · intro _; exact hbig

/-- The postcondition of `multiply_big_integers` on well-formed operands (the
second one without leading zero). -/
theorem multiply_big_integers_post (M : Nat) (a b : BigInteger)
    (ha : WellFormed M a) (hb : WellFormed M b) (hbl : NoLeadingZero b) :
    ((multiply_big_integers M a b).2 = EXIT_NUMBER_TOO_BIG ↔
        10 ^ M ≤ magnitude a * magnitude b) ∧
    ((multiply_big_integers M a b).2 = EXIT_OK ∨
        (multiply_big_integers M a b).2 = EXIT_NUMBER_TOO_BIG) ∧
    ((multiply_big_integers M a b).2 = EXIT_OK →
      WellFormed M (multiply_big_integers M a b).1 ∧
      magnitude (multiply_big_integers M a b).1 = magnitude a * magnitude b ∧
      (multiply_big_integers M a b).1.negative
        = (!(a.negative && b.negative) && (a.negative || b.negative))) := by
  have hM : 1 ≤ M := le_trans ha.1 ha.2.1
  obtain ⟨l1, l2, l3⟩ := multiply_loop_post M a b ha hb hbl a.length 0 zero_big_integer
    (by omega) (zero_big_integer_wf M hM)
    (by simp [zero_big_integer_magnitude, digits_value])
  unfold multiply_big_integers
  rw [create_big_integer_zero]
  rw [if_neg (by simp)]
  simp only
  generalize multiply_loop M a b a.length 0 zero_big_integer = l at l1 l2 l3 ⊢
  by_cases hok : l.2 = EXIT_OK
  · rw [if_neg (not_not.mpr hok)]
    obtain ⟨j1, j2, j3⟩ := l3 hok
    have hneg0 : l.1.negative = false := by rw [j3]; rfl
    refine ⟨?_, Or.inl rfl, fun _ => ?_⟩
    · rw [← l1, hok]
    · by_cases hone : (!(a.negative && b.negative) && (a.negative || b.negative)) = true
      · rw [if_pos hone]
        exact ⟨⟨j1.1, j1.2.1, j1.2.2.1, j1.2.2.2⟩, j2, hone.symm⟩
      · rw [if_neg hone]
        refine ⟨j1, j2, ?_⟩
        rw [hneg0]
        simpa using hone
  · rw [if_pos hok]
    exact ⟨l1, l2, fun h => absurd h hok⟩

theorem natAbs_value (M : Nat) (b : BigInteger) (h : WellFormed M b) :
    ((value b).natAbs : Int) = magnitude b := by
  have h0 := wf_magnitude_nonneg M b h
  unfold value
  split <;> omega

theorem natAbs_value_mul (M : Nat) (a b : BigInteger)
    (ha : WellFormed M a) (hb : WellFormed M b) :
    (((value a * value b).natAbs : Nat) : Int) = magnitude a * magnitude b := by
  rw [Int.natAbs_mul, Nat.cast_mul, natAbs_value M a ha, natAbs_value M b hb]

theorem value_eq_of_sign (x a b : BigInteger)
    (hmag : magnitude x = magnitude a * magnitude b)
    (hneg : x.negative = (!(a.negative && b.negative) && (a.negative || b.negative))) :
    value x = value a * value b := by
  unfold value
  rw [hneg, hmag]
  cases a.negative <;> cases b.negative <;> simp

/-- A canonical BigInteger whose value is not zero has a non-zero top digit. -/
theorem canonical_top_nonzero (M : Nat) (b : BigInteger) (h : Canonical M b)
    (hnz : value b ≠ 0) : TopNonzero b := by
  obtain ⟨hwf, hnl, _⟩ := h
  by_cases h1 : b.length = 1
  · intro h0
    apply hnz
    have : magnitude b = 0 := magnitude_of_zero b ⟨h1, h0⟩
    simp [value, this]
  · exact hnl (by have := hwf.1; omega)

/-- The sign flag of the destination is never written by the digit loop of
`add_big_integers`. -/
theorem add_loop_negative (src dest : BigInteger) (n : Nat) :
    (add_loop src dest n).1.negative = dest.negative := by
  induction n with
  | zero => rfl
  | succ n ih =>
    rw [add_loop_succ, ← ih]
    simp only [add_step]
    split <;> rfl

/-- With `absolute` set, `add_big_integers` keeps the sign flag of `dest`, on
every path and for every operand. -/
theorem add_big_integers_absolute_negative (M : Nat) (src dest : BigInteger) :
    (add_big_integers M src dest true).2.1.negative = dest.negative := by
  unfold add_big_integers
  simp only [Bool.not_true, Bool.false_and, Bool.false_eq_true, if_false]
  split_ifs <;> first | rfl | exact add_loop_negative _ _ _

/-- The multiplication loop leaves the sign flag of `dest` as it was when it
ends without error. -/
theorem multiply_loop_negative (M : Nat) (a b : BigInteger) :
    ∀ (k i : Nat) (dest : BigInteger),
      (multiply_loop M a b k i dest).2 = EXIT_OK →
      (multiply_loop M a b k i dest).1.negative = dest.negative := by
  intro k
  induction k with
  | zero => intro i dest _; rfl
  | succ k ih =>
    intro i dest
    simp only [multiply_loop]
    split
    · intro _; rfl
    · split
      · intro _; rfl
      · split
        · intro h; rename_i h1; exact absurd h h1
        · intro h
          rw [ih _ _ h]
          exact add_big_integers_absolute_negative M _ dest

/-! ## Claims on multiplication and on the addition of magnitudes -/

/-- C2: for canonical `a` and `b` whose true product `|a * b|` is below
`10 ^ MAX_LENGTH`, `multiply_big_integers` reports `EXIT_OK` and the signed
value of the returned BigInteger is `value a * value b`. -/
theorem multiply_big_integers_value (M : Nat) (a b : BigInteger)
    (ha : Canonical M a) (hb : Canonical M b)
    (hfit : (value a * value b).natAbs < 10 ^ M) :
    (multiply_big_integers M a b).2 = EXIT_OK ∧
    value (multiply_big_integers M a b).1 = value a * value b := by
  obtain ⟨p1, p2, p3⟩ := multiply_big_integers_post M a b ha.1 hb.1 hb.2.1
  have hnat := natAbs_value_mul M a b ha.1 hb.1
  have hlt : magnitude a * magnitude b < 10 ^ M := by
    rw [← hnat]; exact_mod_cast hfit
  have hok : (multiply_big_integers M a b).2 = EXIT_OK := by
    rcases p2 with h | h
    · exact h
    · exact absurd (p1.1 h) (not_le.mpr hlt)
  obtain ⟨_, q2, q3⟩ := p3 hok
  exact ⟨hok, value_eq_of_sign _ a b q2 q3⟩

/-- The product `-12 * 3` at `MAX_LENGTH = 4`. -/
theorem multiply_big_integers_value_witness :
    Canonical 4 (ofDigits true [2, 1]) ∧ Canonical 4 (ofDigits false [3]) ∧
    (value (ofDigits true [2, 1]) * value (ofDigits false [3])).natAbs < 10 ^ 4 ∧
    (multiply_big_integers 4 (ofDigits true [2, 1]) (ofDigits false [3])).2 = EXIT_OK ∧
    value (multiply_big_integers 4 (ofDigits true [2, 1]) (ofDigits false [3])).1
      = value (ofDigits true [2, 1]) * value (ofDigits false [3]) :=
  ⟨by decide, by decide, by decide,
   multiply_big_integers_value 4 (ofDigits true [2, 1]) (ofDigits false [3])
     (by decide) (by decide) (by decide)⟩

/-- C3: for canonical `a` and `b` whose true product needs more than
`MAX_LENGTH` digits (`|a * b| ≥ 10 ^ MAX_LENGTH`), `multiply_big_integers`
reports `EXIT_NUMBER_TOO_BIG`; it does not return with `EXIT_OK`. -/
theorem multiply_big_integers_too_big (M : Nat) (a b : BigInteger)
    (ha : Canonical M a) (hb : Canonical M b)
    (hbig : 10 ^ M ≤ (value a * value b).natAbs) :
    (multiply_big_integers M a b).2 = EXIT_NUMBER_TOO_BIG ∧
    (multiply_big_integers M a b).2 ≠ EXIT_OK := by
  obtain ⟨p1, _, _⟩ := multiply_big_integers_post M a b ha.1 hb.1 hb.2.1
  have hnat := natAbs_value_mul M a b ha.1 hb.1
  have hge : 10 ^ M ≤ magnitude a * magnitude b := by
    rw [← hnat]; exact_mod_cast hbig
  have h := p1.2 hge
  exact ⟨h, by rw [h]; decide⟩

/-- The product `99 * -11` at `MAX_LENGTH = 3`. -/
theorem multiply_big_integers_too_big_witness :
    Canonical 3 (ofDigits false [9, 9]) ∧ Canonical 3 (ofDigits true [1, 1]) ∧
    10 ^ 3 ≤ (value (ofDigits false [9, 9]) * value (ofDigits true [1, 1])).natAbs ∧
    (multiply_big_integers 3 (ofDigits false [9, 9]) (ofDigits true [1, 1])).2
      = EXIT_NUMBER_TOO_BIG ∧
    (multiply_big_integers 3 (ofDigits false [9, 9]) (ofDigits true [1, 1])).2 ≠ EXIT_OK :=
  ⟨by decide, by decide, by decide,
   multiply_big_integers_too_big 3 (ofDigits false [9, 9]) (ofDigits true [1, 1])
     (by decide) (by decide) (by decide)⟩

/-- C4, as stated, fails: `-5 * 0` succeeds, the product is zero, and the
result carries the negative flag. -/
theorem multiply_big_integers_negative_zero :
    Canonical 4 (ofDigits true [5]) ∧ Canonical 4 (ofDigits false [0]) ∧
    (multiply_big_integers 4 (ofDigits true [5]) (ofDigits false [0])).2 = EXIT_OK ∧
    value (ofDigits true [5]) * value (ofDigits false [0]) = 0 ∧
    value (multiply_big_integers 4 (ofDigits true [5]) (ofDigits false [0])).1 = 0 ∧
    ¬ ((multiply_big_integers 4 (ofDigits true [5]) (ofDigits false [0])).1.negative = false) := by
  decide

/-- C4, amended: whenever `multiply_big_integers` succeeds, the negative flag
of the result is set iff exactly one of `a`, `b` has its negative flag set;
this includes the products that are zero. -/
theorem multiply_big_integers_sign (M : Nat) (a b : BigInteger)
    (hok : (multiply_big_integers M a b).2 = EXIT_OK) :
    ((multiply_big_integers M a b).1.negative = true ↔ a.negative ≠ b.negative) := by
  unfold multiply_big_integers at hok ⊢
  rw [create_big_integer_zero] at hok ⊢
  rw [if_neg (by simp)] at hok ⊢
  simp only at hok ⊢
  by_cases hl : (multiply_loop M a b a.length 0 zero_big_integer).2 = EXIT_OK
  · have hneg : (multiply_loop M a b a.length 0 zero_big_integer).1.negative = false :=
      multiply_loop_negative M a b a.length 0 zero_big_integer hl
    rw [if_neg (not_not.mpr hl)]
    cases ha : a.negative <;> cases hb : b.negative <;> simp [hneg]
  · rw [if_pos hl] at hok
    exact absurd hok hl

/-- The product `-5 * 0` at `MAX_LENGTH = 4`. -/
theorem multiply_big_integers_sign_witness :
    (multiply_big_integers 4 (ofDigits true [5]) (ofDigits false [0])).2 = EXIT_OK ∧
    ((multiply_big_integers 4 (ofDigits true [5]) (ofDigits false [0])).1.negative = true ↔
      (ofDigits true [5]).negative ≠ (ofDigits false [0]).negative) :=
  ⟨by decide,
   multiply_big_integers_sign 4 (ofDigits true [5]) (ofDigits false [0]) (by decide)⟩

/-- C6: for canonical non-zero `src` and `dest` on the digit-wise addition
path (`absolute`, or equal sign flags), `add_big_integers` fails with
`EXIT_NUMBER_TOO_BIG` iff `|src| + |dest| ≥ 10 ^ MAX_LENGTH`; otherwise it
returns `EXIT_OK`, the magnitude of `dest` is `|src| + |dest|`, the top digit
`data[length - 1]` is not zero, all digits from `length` on are zero, and the
sign flag of `dest` is unchanged. -/
theorem add_big_integers_digitwise (M : Nat) (src dest : BigInteger) (absolute : Bool)
    (hs : Canonical M src) (hd : Canonical M dest)
    (hsnz : value src ≠ 0) (hdnz : value dest ≠ 0)
    (hpath : absolute = true ∨ src.negative = dest.negative) :
    ((add_big_integers M src dest absolute).2.2 = EXIT_NUMBER_TOO_BIG ↔
        10 ^ M ≤ magnitude src + magnitude dest) ∧
    (¬ (10 ^ M ≤ magnitude src + magnitude dest) →
      (add_big_integers M src dest absolute).2.2 = EXIT_OK ∧
      magnitude (add_big_integers M src dest absolute).2.1 = magnitude src + magnitude dest ∧
      1 ≤ (add_big_integers M src dest absolute).2.1.length ∧
      (add_big_integers M src dest absolute).2.1.length ≤ M ∧
      (add_big_integers M src dest absolute).2.1.data
        ((add_big_integers M src dest absolute).2.1.length - 1) ≠ 0 ∧
      (∀ i, i < M → (add_big_integers M src dest absolute).2.1.length ≤ i →
        (add_big_integers M src dest absolute).2.1.data i = 0) ∧
      (add_big_integers M src dest absolute).2.1.negative = dest.negative) := by
  obtain ⟨_, p2, p3, p4⟩ := add_big_integers_post M src dest absolute hs.1 hd.1 hpath
  refine ⟨p2, fun hsmall => ?_⟩
  have hok : (add_big_integers M src dest absolute).2.2 = EXIT_OK := by
    rcases p3 with h | h
    · exact h
    · exact absurd (p2.1 h) hsmall
  obtain ⟨q1, q2, q3, q4, _⟩ := p4 hok
  exact ⟨hok, q2, q1.1, q1.2.1,
    q4 (canonical_top_nonzero M src hs hsnz) (canonical_top_nonzero M dest hd hdnz),
    q1.2.2.2, q3⟩

/-- The sum `-95 + -5` at `MAX_LENGTH = 3`: the carry runs into a third
digit. -/
theorem add_big_integers_digitwise_witness :
    Canonical 3 (ofDigits true [5, 9]) ∧ Canonical 3 (ofDigits true [5]) ∧
    value (ofDigits true [5, 9]) ≠ 0 ∧ value (ofDigits true [5]) ≠ 0 ∧
    (add_big_integers 3 (ofDigits true [5, 9]) (ofDigits true [5]) false).2.2 = EXIT_OK ∧
    magnitude (add_big_integers 3 (ofDigits true [5, 9]) (ofDigits true [5]) false).2.1 = 100 ∧
    (add_big_integers 3 (ofDigits true [5, 9]) (ofDigits true [5]) false).2.1.length = 3 :=
  have h := add_big_integers_digitwise 3 (ofDigits true [5, 9]) (ofDigits true [5]) false
    (by decide) (by decide) (by decide) (by decide) (Or.inr rfl)
  ⟨by decide, by decide, by decide, by decide, (h.2 (by decide)).1, by decide, by decide⟩

/-! ## Parsing -/

theorem parse_raw_loop_digits (M : Nat) :
    ∀ (cs : List Char) (i : Nat) (data : Nat → Int),
      (∀ c, c ∈ cs → c.isDigit = true) → i + cs.length ≤ M + 1 →
      (parse_raw_loop M cs i data).1 = i + cs.length ∧
      (parse_raw_loop M cs i data).2.2 = EXIT_OK ∧
      ∀ j, (parse_raw_loop M cs i data).2.1 j =
        if i ≤ j ∧ j < i + cs.length then digit_value (cs.getD (j - i) '0') else data j := by
  intro cs
  induction cs with
  | nil =>
    intro i data _ _
    refine ⟨rfl, rfl, fun j => ?_⟩
    rw [if_neg (by simp)]
    rfl
  | cons c rest ih =>
    intro i data hdig hlen
    have hc : c.isDigit = true := hdig c (List.mem_cons_self c rest)
    have hlen2 : i + 1 + rest.length ≤ M + 1 := by simp only [List.length_cons] at hlen; omega
    have hi : ¬ i > M := by omega
    have hstep : parse_raw_loop M (c :: rest) i data
        = parse_raw_loop M rest (i + 1) (store data i (digit_value c)) := by
      simp [parse_raw_loop, hc, hi]
    obtain ⟨h1, h2, h3⟩ := ih (i + 1) (store data i (digit_value c))
      (fun x hx => hdig x (List.mem_cons_of_mem c hx)) hlen2
    rw [hstep]
    refine ⟨by rw [h1, List.length_cons]; omega, h2, fun j => ?_⟩
    rw [h3 j, List.length_cons]
    by_cases hj : j = i
    · subst hj
      rw [if_neg (by omega), if_pos (by omega), store_same]
      simp
    · rw [store_other _ _ _ _ hj]
      by_cases hj2 : i + 1 ≤ j ∧ j < i + 1 + rest.length
      · rw [if_pos hj2, if_pos (by omega)]
        have : j - i = (j - (i + 1)) + 1 := by omega
        rw [this, List.getD_cons_succ]
      · rw [if_neg hj2, if_neg (by omega)]

theorem reverse_fold_inv (b : BigInteger) :
    ∀ k, 2 * k ≤ b.length →
      ((List.range k).foldl reverse_step b).length = b.length ∧
      ((List.range k).foldl reverse_step b).negative = b.negative ∧
      ∀ j, ((List.range k).foldl reverse_step b).data j =
        if j < k ∨ (b.length - k ≤ j ∧ j < b.length) then b.data (b.length - 1 - j)
        else b.data j := by
  intro k
  induction k with
  | zero =>
    intro _
    refine ⟨rfl, rfl, fun j => ?_⟩
    rw [if_neg (by omega)]
    rfl
  | succ k ih =>
    intro hk
    obtain ⟨h1, h2, h3⟩ := ih (by omega)
    rw [List.range_succ, List.foldl_append]
    simp only [List.foldl_cons, List.foldl_nil]
    generalize (List.range k).foldl reverse_step b = r at h1 h2 h3 ⊢
    refine ⟨h1, h2, fun j => ?_⟩
    simp only [reverse_step, h1]
    have e1 : r.data k = b.data k := by rw [h3 k, if_neg (by omega)]
    have e2 : r.data (b.length - 1 - k) = b.data (b.length - 1 - k) := by
      rw [h3, if_neg (by omega)]
    by_cases hjk : j = k
    · subst hjk
      rw [store_same, e2, if_pos (by omega)]
    · rw [store_other _ _ _ _ hjk]
      by_cases hjr : j = b.length - 1 - k
      · subst hjr
        rw [store_same, e1, if_pos (by omega)]
        congr 1; omega
      · rw [store_other _ _ _ _ hjr, h3 j]
        by_cases hc : j < k ∨ (b.length - k ≤ j ∧ j < b.length)
        · rw [if_pos hc, if_pos (by omega)]
        · rw [if_neg hc, if_neg (by omega)]

/-- The function `reverse_big_integer_data` mirrors the first `length` bytes
and touches nothing else. -/
theorem reverse_big_integer_data_spec (b : BigInteger) :
    (reverse_big_integer_data b).length = b.length ∧
    (reverse_big_integer_data b).negative = b.negative ∧
    ∀ j, (reverse_big_integer_data b).data j =
      if j < b.length then b.data (b.length - 1 - j) else b.data j := by
  obtain ⟨h1, h2, h3⟩ := reverse_fold_inv b (b.length / 2) (by omega)
  refine ⟨h1, h2, fun j => ?_⟩
  show ((List.range (b.length / 2)).foldl reverse_step b).data j = _
  rw [h3 j]
  by_cases hj : j < b.length
  · rw [if_pos hj]
    by_cases hc : j < b.length / 2 ∨ (b.length - b.length / 2 ≤ j ∧ j < b.length)
    · rw [if_pos hc]
    · rw [if_neg hc]
      congr 1; omega
  · rw [if_neg hj, if_neg (by omega)]

/-- What `create_big_integer` does with an optional `-` followed by `n` decimal
digits, `1 ≤ n ≤ MAX_LENGTH + 1`: it reports `EXIT_OK`, `length = n`, the digits
are stored least significant first, every other byte is `0`. -/
theorem create_big_integer_spec (M : Nat) (neg : Bool) (digits : List Char)
    (hdig : ∀ c, c ∈ digits → c.isDigit = true)
    (h1 : 1 ≤ digits.length) (h2 : digits.length ≤ M + 1) :
    (create_big_integer M (signed_text neg digits)).2 = EXIT_OK ∧
    (create_big_integer M (signed_text neg digits)).1.length = digits.length ∧
    (create_big_integer M (signed_text neg digits)).1.negative = neg ∧
    ∀ j, (create_big_integer M (signed_text neg digits)).1.data j =
      if j < digits.length then digit_value (digits.getD (digits.length - 1 - j) '0') else 0 := by
  -- the parse of the digits into a zeroed buffer
  have hparse : ∀ (b : BigInteger), b.data = (fun _ => 0) →
      (parse_raw_integer M digits b).2 = EXIT_OK ∧
      (parse_raw_integer M digits b).1.length = digits.length ∧
      (parse_raw_integer M digits b).1.negative = b.negative ∧
      ∀ j, (parse_raw_integer M digits b).1.data j =
        if j < digits.length then digit_value (digits.getD j '0') else 0 := by
    intro b hb
    obtain ⟨p1, p2, p3⟩ := parse_raw_loop_digits M digits 0 b.data hdig (by omega)
    unfold parse_raw_integer
    generalize parse_raw_loop M digits 0 b.data = r at p1 p2 p3 ⊢
    obtain ⟨i, data, e⟩ := r
    simp only at p1 p2 p3
    subst p2
    have hi : i ≠ 0 := by omega
    dsimp only
    rw [if_neg hi]
    refine ⟨rfl, by simpa using p1, rfl, fun j => ?_⟩
    show data j = _
    rw [p3 j, hb]
    simp
  -- the text after the optional sign
  have hcreate : ∀ (b : BigInteger), b.data = (fun _ => 0) →
      (reverse_big_integer_data (parse_raw_integer M digits b).1).length = digits.length ∧
      (reverse_big_integer_data (parse_raw_integer M digits b).1).negative = b.negative ∧
      ∀ j, (reverse_big_integer_data (parse_raw_integer M digits b).1).data j =
        if j < digits.length then digit_value (digits.getD (digits.length - 1 - j) '0')
        else 0 := by
    intro b hb
    obtain ⟨_, q2, q3, q4⟩ := hparse b hb
    obtain ⟨r1, r2, r3⟩ := reverse_big_integer_data_spec (parse_raw_integer M digits b).1
    refine ⟨by rw [r1, q2], by rw [r2, q3], fun j => ?_⟩
    rw [r3 j, q2]
    by_cases hj : j < digits.length
    · rw [if_pos hj, if_pos hj, q4, if_pos (by omega)]
    · rw [if_neg hj, if_neg hj, q4, if_neg hj]
  cases neg with
  | true =>
    have hunf : create_big_integer M (signed_text true digits)
        = (reverse_big_integer_data (parse_raw_integer M digits
            { length := 0, negative := true, data := fun _ => 0 }).1, EXIT_OK) := by
      have hd := (hparse { length := 0, negative := true, data := fun _ => 0 } rfl).1
      have hm : Char.ofNat 45 = '-' := by decide
      simp [create_big_integer, signed_text, hm, hd]
    rw [hunf]
    obtain ⟨c1, c2, c3⟩ := hcreate { length := 0, negative := true, data := fun _ => 0 } rfl
    exact ⟨rfl, c1, c2, c3⟩
  | false =>
    obtain ⟨c, rest, hcr⟩ : ∃ c rest, digits = c :: rest := by
      cases digits with
      | nil => simp at h1
      | cons c rest => exact ⟨c, rest, rfl⟩
    have hcd : c.isDigit = true := hdig c (by rw [hcr]; exact List.mem_cons_self c rest)
    have hcm : ¬ (c = '-') := by
      intro h; rw [h] at hcd; exact absurd hcd (by decide)
    have hunf : create_big_integer M (signed_text false digits)
        = (reverse_big_integer_data (parse_raw_integer M digits
            { length := 0, negative := false, data := fun _ => 0 }).1, EXIT_OK) := by
      have hd := (hparse { length := 0, negative := false, data := fun _ => 0 } rfl).1
      rw [hcr] at hd ⊢
      simp [create_big_integer, signed_text, hcm, hd]
    rw [hunf]
    obtain ⟨c1, c2, c3⟩ := hcreate { length := 0, negative := false, data := fun _ => 0 } rfl
    exact ⟨rfl, c1, c2, c3⟩

/-- C9: for an optional `-` followed by `n` decimal digits, `1 ≤ n ≤
MAX_LENGTH`, `create_big_integer` reports `EXIT_OK` and returns a BigInteger
with `length = n`, `data[i]` the numeric value of the digit `c[n - 1 - i]` for
`i < n`, `data[i] = 0` for `i ≥ n`, and `negative` set iff the text began with
`-`. -/
theorem create_big_integer_stores_digits (M : Nat) (neg : Bool) (digits : List Char)
    (hdig : ∀ c, c ∈ digits → c.isDigit = true)
    (h1 : 1 ≤ digits.length) (h2 : digits.length ≤ M) :
    (create_big_integer M (signed_text neg digits)).2 = EXIT_OK ∧
    (create_big_integer M (signed_text neg digits)).1.length = digits.length ∧
    (∀ i, i < digits.length →
      (create_big_integer M (signed_text neg digits)).1.data i
        = digit_value (digits.getD (digits.length - 1 - i) '0')) ∧
    (∀ i, digits.length ≤ i →
      (create_big_integer M (signed_text neg digits)).1.data i = 0) ∧
    (create_big_integer M (signed_text neg digits)).1.negative = neg := by
  obtain ⟨c1, c2, c3, c4⟩ := create_big_integer_spec M neg digits hdig h1 (by omega)
  refine ⟨c1, c2, fun i hi => ?_, fun i hi => ?_, c3⟩
  · rw [c4 i, if_pos hi]
  · rw [c4 i, if_neg (by omega)]

/-- The text `-123` at `MAX_LENGTH = 3`. -/
theorem create_big_integer_stores_digits_witness :
    (∀ c, c ∈ ['1', '2', '3'] → c.isDigit = true) ∧
    (create_big_integer 3 (signed_text true ['1', '2', '3'])).2 = EXIT_OK ∧
    (create_big_integer 3 (signed_text true ['1', '2', '3'])).1.length = 3 ∧
    (create_big_integer 3 (signed_text true ['1', '2', '3'])).1.data 0 = 3 ∧
    (create_big_integer 3 (signed_text true ['1', '2', '3'])).1.data 1 = 2 ∧
    (create_big_integer 3 (signed_text true ['1', '2', '3'])).1.data 2 = 1 ∧
    (create_big_integer 3 (signed_text true ['1', '2', '3'])).1.negative = true :=
  have h := create_big_integer_stores_digits 3 true ['1', '2', '3']
    (by decide) (by decide) (by decide)
  ⟨by decide, h.1, h.2.1, h.2.2.1 0 (by decide), h.2.2.1 1 (by decide),
   h.2.2.1 2 (by decide), h.2.2.2.2⟩

/-- C8, the code at `MAX_LENGTH = 3`: the four digits `1234` are accepted with
`EXIT_OK` and `length = 4`, and byte `3`, one past the buffer, receives a
digit; the five digits `12345` are rejected, after byte `3` was written. -/
theorem create_big_integer_one_digit_too_many :
    (create_big_integer 3 ['1', '2', '3', '4']).2 = EXIT_OK ∧
    (create_big_integer 3 ['1', '2', '3', '4']).1.length = 4 ∧
    (create_big_integer 3 ['1', '2', '3', '4']).1.data 3 = 1 ∧
    (create_big_integer 3 ['1', '2', '3', '4', '5']).2 = EXIT_NUMBER_TOO_BIG ∧
    (create_big_integer 3 ['1', '2', '3', '4', '5']).1.data 3 = 4 := by
  decide

/-- The guard `i > MAX_LENGTH` for every capacity: a text of `MAX_LENGTH + 1`
digits is accepted with `EXIT_OK`, and the byte at index `MAX_LENGTH` receives
its first digit. -/
theorem create_big_integer_accepts_max_plus_one (M : Nat) (neg : Bool)
    (digits : List Char) (hdig : ∀ c, c ∈ digits → c.isDigit = true)
    (hlen : digits.length = M + 1) :
    (create_big_integer M (signed_text neg digits)).2 = EXIT_OK ∧
    (create_big_integer M (signed_text neg digits)).1.length = M + 1 ∧
    (create_big_integer M (signed_text neg digits)).1.data M
      = digit_value (digits.getD 0 '0') := by
  obtain ⟨c1, c2, _, c4⟩ := create_big_integer_spec M neg digits hdig (by omega) (by omega)
  refine ⟨c1, by rw [c2, hlen], ?_⟩
  rw [c4 M, if_pos (by omega), hlen]
  simp

/-! ## Printing -/

theorem repr_digit_value (c : Char) (h : c.isDigit = true) :
    (Int.repr (digit_value c)).toList = [c] := by
  have hb : 48 ≤ c.toNat ∧ c.toNat ≤ 57 := by
    simp only [Char.isDigit, Bool.and_eq_true, decide_eq_true_eq] at h
    exact ⟨h.1, h.2⟩
  have hc : c = Char.ofNat c.toNat := (Char.ofNat_toNat c).symm
  generalize c.toNat = n at hb hc
  subst hc
  obtain ⟨h1, h2⟩ := hb
  interval_cases n <;> decide

theorem print_digits_of_digits (b : BigInteger) (digits : List Char)
    (hdig : ∀ c, c ∈ digits → c.isDigit = true)
    (hdata : ∀ j, j < digits.length →
      b.data j = digit_value (digits.getD (digits.length - 1 - j) '0')) :
    ∀ k, k ≤ digits.length → print_digits b k = digits.drop (digits.length - k) := by
  intro k
  induction k with
  | zero => intro _; simp [print_digits]
  | succ k ih =>
    intro hk
    have hlt : digits.length - (k + 1) < digits.length := by omega
    have hidx : digits.length - 1 - k = digits.length - (k + 1) := by omega
    simp only [print_digits]
    rw [ih (by omega), hdata k (by omega), hidx, List.getD_eq_getElem _ _ hlt,
      repr_digit_value _ (hdig _ (List.getElem_mem hlt)), List.drop_eq_getElem_cons hlt]
    have : digits.length - (k + 1) + 1 = digits.length - k := by omega
    rw [this]
    rfl

/-- C10, as stated, fails: `007` is printed back as `007` and `-0` as `-0`,
neither of which is the canonical form. -/
theorem print_cell_not_canonical :
    (create_big_integer 4 ['0', '0', '7']).2 = EXIT_OK ∧
    print_cell (create_big_integer 4 ['0', '0', '7']).1 = ['0', '0', '7'] ∧
    canonical_form ['0', '0', '7'] = ['7'] ∧
    (create_big_integer 4 ['-', '0']).2 = EXIT_OK ∧
    print_cell (create_big_integer 4 ['-', '0']).1 = ['-', '0'] ∧
    canonical_form ['-', '0'] = ['0'] := by
  decide

/-- C10, amended: for an optional `-` followed by between `1` and `MAX_LENGTH`
digits, printing the parsed value the way `print_matrix` prints a cell gives
back the text itself, character for character. -/
theorem print_cell_create_big_integer (M : Nat) (neg : Bool) (digits : List Char)
    (hdig : ∀ c, c ∈ digits → c.isDigit = true)
    (h1 : 1 ≤ digits.length) (h2 : digits.length ≤ M) :
    (create_big_integer M (signed_text neg digits)).2 = EXIT_OK ∧
    print_cell (create_big_integer M (signed_text neg digits)).1 = signed_text neg digits := by
  obtain ⟨c1, c2, c3, c4⟩ := create_big_integer_spec M neg digits hdig h1 (by omega)
  refine ⟨c1, ?_⟩
  have hp := print_digits_of_digits (create_big_integer M (signed_text neg digits)).1 digits hdig
    (fun j hj => by rw [c4 j, if_pos hj]) digits.length (le_refl _)
  unfold print_cell
  rw [c2, hp, c3]
  simp [signed_text]

/-- The text `-042` at `MAX_LENGTH = 3`. -/
theorem print_cell_create_big_integer_witness :
    (∀ c, c ∈ ['0', '4', '2'] → c.isDigit = true) ∧
    (create_big_integer 3 (signed_text true ['0', '4', '2'])).2 = EXIT_OK ∧
    print_cell (create_big_integer 3 (signed_text true ['0', '4', '2'])).1
      = ['-', '0', '4', '2'] :=
  have h := print_cell_create_big_integer 3 true ['0', '4', '2']
    (by decide) (by decide) (by decide)
  ⟨by decide, h.1, h.2⟩

/-! ## The digit order of `compare_big_integers` and what follows from it -/

/-- C7, the code at `a = 21`, `b = 12`: both are canonical, `21 > 12`, and
`compare_big_integers` answers `-1` with and without `absolute`; the loop
starts at `data[0]`, the least significant digit, where `1 < 2`. -/
theorem compare_big_integers_starts_at_low_digit :
    Canonical 4 (ofDigits false [1, 2]) ∧ Canonical 4 (ofDigits false [2, 1]) ∧
    value (ofDigits false [1, 2]) = 21 ∧ value (ofDigits false [2, 1]) = 12 ∧
    compare_big_integers (ofDigits false [1, 2]) (ofDigits false [2, 1]) false = -1 ∧
    compare_big_integers (ofDigits false [1, 2]) (ofDigits false [2, 1]) true = -1 := by
  decide

/-- C5, the code at `src = -21`, `dest = 12`: `add_big_integers` returns
`EXIT_OK` and leaves `91` in `dest`, where `12 + (-21) = -9`. -/
theorem add_big_integers_wrong_difference :
    Canonical 4 (ofDigits true [1, 2]) ∧ Canonical 4 (ofDigits false [2, 1]) ∧
    value (ofDigits true [1, 2]) = -21 ∧ value (ofDigits false [2, 1]) = 12 ∧
    (add_big_integers 4 (ofDigits true [1, 2]) (ofDigits false [2, 1]) false).2.2 = EXIT_OK ∧
    value (add_big_integers 4 (ofDigits true [1, 2]) (ofDigits false [2, 1]) false).2.1 = 91 := by
  decide

/-- The sign case named by the specification, single digits: `src = -5`,
`dest = 3` gives `-2`. -/
theorem add_big_integers_minus_five_plus_three :
    (add_big_integers 4 (ofDigits true [5]) (ofDigits false [3]) false).2.2 = EXIT_OK ∧
    value (add_big_integers 4 (ofDigits true [5]) (ofDigits false [3]) false).2.1 = -2 := by
  decide

/-- C1, the code at `A = [[1, 1]]`, `B = [[12], [-21]]`: `multiply_matrices`
reports `EXIT_OK` and the single cell holds `91`, where
`1 * 12 + 1 * (-21) = -9`. -/
theorem multiply_matrices_wrong_cell :
    observe (multiply_matrices 4
      (ofRows 1 2 [[ofDigits false [1], ofDigits false [1]]])
      (ofRows 2 1 [[ofDigits false [2, 1]], [ofDigits true [1, 2]]]) EXIT_OK)
      = some (EXIT_OK, 1, 1, [[some 91]]) ∧
    value (ofDigits false [1]) * value (ofDigits false [2, 1])
      + value (ofDigits false [1]) * value (ofDigits true [1, 2]) = -9 ∧
    Canonical 4 (ofDigits false [1]) ∧ Canonical 4 (ofDigits false [2, 1]) ∧
    Canonical 4 (ofDigits true [1, 2]) :=
  ⟨rfl, by decide, by decide, by decide, by decide⟩

/-- The matrix case named by the specification: `[[1, 2], [3, 4]]` times
`[[5, 6], [7, 8]]` is `[[19, 22], [43, 50]]`. -/
theorem multiply_matrices_spec_case :
    observe (multiply_matrices 4
      (ofRows 2 2 [[ofDigits false [1], ofDigits false [2]],
                   [ofDigits false [3], ofDigits false [4]]])
      (ofRows 2 2 [[ofDigits false [5], ofDigits false [6]],
                   [ofDigits false [7], ofDigits false [8]]]) EXIT_OK)
      = some (EXIT_OK, 2, 2, [[some 19, some 22], [some 43, some 50]]) := rfl

/-! ## The operand `src` of `add_big_integers` -/

theorem subtract_big_integers_src (src dest : BigInteger) :
    (subtract_big_integers src dest).1 = src := by
  unfold subtract_big_integers subtract_swap
  cases src with
  | mk l n d =>
    cases n
    · by_cases hc : compare_big_integers dest { length := l, negative := false, data := d } true > 0
      · simp [hc]
      · simp [hc]
    · by_cases hc : compare_big_integers { length := l, negative := true, data := d } dest true > 0
      · simp [hc]
      · simp [hc]

theorem add_big_integers_src (M : Nat) (src dest : BigInteger) (absolute : Bool) :
    (add_big_integers M src dest absolute).1 = src := by
  unfold add_big_integers
  dsimp only
  split_ifs <;> first | rfl | exact subtract_big_integers_src src dest

/-- C16: for all BigIntegers `src` and `dest` (distinct objects) and either
value of `absolute`, after `add_big_integers` returns, through the fast paths,
the digit-wise addition or `subtract_big_integers`, with or without error,
`src` has the negative flag, the length and the digits it had before the
call. -/
theorem add_big_integers_src_frame (M : Nat) (src dest : BigInteger) (absolute : Bool) :
    (add_big_integers M src dest absolute).1.negative = src.negative ∧
    (add_big_integers M src dest absolute).1.length = src.length ∧
    ∀ i, (add_big_integers M src dest absolute).1.data i = src.data i := by
  rw [add_big_integers_src]
  exact ⟨rfl, rfl, fun _ => rfl⟩

/-! ## `scale_big_integer` and the sign of its operand -/

/-- C15, as stated, fails: scaling `-3` by `2` succeeds and returns `6`, where
`value src * 2 = -6`. -/
theorem scale_big_integer_drops_sign :
    Canonical 4 (ofDigits true [3]) ∧
    (scale_big_integer 4 (ofDigits true [3]) 2).2 = EXIT_OK ∧
    value (scale_big_integer 4 (ofDigits true [3]) 2).1 = 6 ∧
    value (ofDigits true [3]) * 2 = -6 := by
  decide

/-- C15, amended: for canonical `src` of either sign and a digit `0 ≤ d` (so
for every digit in `0 .. 9`), if `scale_big_integer` reports `EXIT_OK` then the
result is not negative and its value is `|value src| * d`; for `d = 0` that is
zero. -/
theorem scale_big_integer_value (M : Nat) (src : BigInteger) (d : Int)
    (hs : Canonical M src) (h0 : 0 ≤ d)
    (hok : (scale_big_integer M src d).2 = EXIT_OK) :
    (scale_big_integer M src d).1.negative = false ∧
    value (scale_big_integer M src d).1 = ((value src).natAbs : Int) * d ∧
    (d = 0 → value (scale_big_integer M src d).1 = 0) := by
  obtain ⟨_, _, p3⟩ := scale_big_integer_post M src d hs.1 h0
  obtain ⟨_, q2, q3, _⟩ := p3 hok
  have hv : value (scale_big_integer M src d).1 = ((value src).natAbs : Int) * d := by
    rw [natAbs_value M src hs.1]
    unfold value
    rw [q3, q2]
    simp [mul_comm]
  refine ⟨q3, hv, fun hd => ?_⟩
  rw [hv, hd, mul_zero]

/-- The scaling of `-3` by `2` at `MAX_LENGTH = 4`. -/
theorem scale_big_integer_value_witness :
    Canonical 4 (ofDigits true [3]) ∧
    (scale_big_integer 4 (ofDigits true [3]) 2).2 = EXIT_OK ∧
    (scale_big_integer 4 (ofDigits true [3]) 2).1.negative = false ∧
    value (scale_big_integer 4 (ofDigits true [3]) 2).1
      = ((value (ofDigits true [3])).natAbs : Int) * 2 :=
  have h := scale_big_integer_value 4 (ofDigits true [3]) 2
    (by decide) (by decide) (by decide)
  ⟨by decide, by decide, h.1, h.2.1⟩

/-! ## The borrow left by `subtract_big_integers` -/

/-- C18, the code at `src = -21`, `dest = 12`: both are canonical and non-zero,
exactly one is negative, the signs are not swapped, and after the two passes
of the digit loop `carry` is `-1`; the digits written are `91`, where
`|21 - 12| = 9`. -/
theorem subtract_big_integers_leftover_borrow :
    Canonical 4 (ofDigits true [1, 2]) ∧ Canonical 4 (ofDigits false [2, 1]) ∧
    value (ofDigits true [1, 2]) = -21 ∧ value (ofDigits false [2, 1]) = 12 ∧
    (subtract_swap (ofDigits true [1, 2]) (ofDigits false [2, 1])).2.2 = false ∧
    (subtract_loop (ofDigits true [1, 2]) (ofDigits false [2, 1]) 2).2 = -1 ∧
    digits_value (subtract_loop (ofDigits true [1, 2]) (ofDigits false [2, 1]) 2).1.data 2
      = 91 := by
  decide

/-! ## Zeros of more than one digit -/

/-- C12, the code at `x = 12`: `add_big_integers(12, -12, false)` returns
`EXIT_OK` and leaves the digits `00` with `length = 2` in `dest`, not the zero
of length `1`; adding `-5` to that `dest` then gives `95`. -/
theorem add_big_integers_opposite_leaves_long_zero :
    Canonical 4 (ofDigits false [2, 1]) ∧ Canonical 4 (ofDigits true [2, 1]) ∧
    (add_big_integers 4 (ofDigits false [2, 1]) (ofDigits true [2, 1]) false).2.2 = EXIT_OK ∧
    (add_big_integers 4 (ofDigits false [2, 1]) (ofDigits true [2, 1]) false).2.1.length = 2 ∧
    (add_big_integers 4 (ofDigits false [2, 1]) (ofDigits true [2, 1]) false).2.1.data 0 = 0 ∧
    (add_big_integers 4 (ofDigits false [2, 1]) (ofDigits true [2, 1]) false).2.1.data 1 = 0 ∧
    (add_big_integers 4 (ofDigits false [2, 1]) (ofDigits true [2, 1]) false).2.1.negative
      = false ∧
    value (add_big_integers 4 (ofDigits true [5])
      (add_big_integers 4 (ofDigits false [2, 1]) (ofDigits true [2, 1]) false).2.1 false).2.1
      = 95 := by
  decide

/-- C13, the code at `a = 12`, `b = 0`: both products succeed; `12 * 0` is
returned with `length = 2` and `0 * 12` with `length = 1`. -/
theorem multiply_big_integers_zero_length_differs :
    Canonical 4 (ofDigits false [2, 1]) ∧ Canonical 4 (ofDigits false [0]) ∧
    (multiply_big_integers 4 (ofDigits false [2, 1]) (ofDigits false [0])).2 = EXIT_OK ∧
    (multiply_big_integers 4 (ofDigits false [0]) (ofDigits false [2, 1])).2 = EXIT_OK ∧
    (multiply_big_integers 4 (ofDigits false [2, 1]) (ofDigits false [0])).1.length = 2 ∧
    (multiply_big_integers 4 (ofDigits false [0]) (ofDigits false [2, 1])).1.length = 1 := by
  decide

/-- A zero of two digits in a matrix product: `[[12, 1]]` times `[[0], [-5]]`
is reported as `95`, where `12 * 0 + 1 * (-5) = -5`. -/
theorem multiply_matrices_long_zero_cell :
    observe (multiply_matrices 4
      (ofRows 1 2 [[ofDigits false [2, 1], ofDigits false [1]]])
      (ofRows 2 1 [[ofDigits false [0]], [ofDigits true [5]]]) EXIT_OK)
      = some (EXIT_OK, 1, 1, [[some 95]]) := rfl

/-! ## The buffer invariant -/

theorem wf_buffer_invariant (M : Nat) (b : BigInteger) (h : WellFormed M b) :
    BufferInvariant M b := ⟨h.2.1, h.2.2.1, h.2.2.2⟩

theorem subtract_fold_inv (src : BigInteger) (fs fd : Int)
    (hf : (fs = 1 ∧ fd = -1) ∨ (fs = -1 ∧ fd = 1)) (dest : BigInteger) :
    ∀ n, (∀ i, i < n → 0 ≤ src.data i ∧ src.data i ≤ 9) →
      (∀ i, i < n → 0 ≤ dest.data i ∧ dest.data i ≤ 9) →
      (((List.range n).foldl (subtract_step src fs fd) (dest, 0)).2 = 0 ∨
        ((List.range n).foldl (subtract_step src fs fd) (dest, 0)).2 = -1) ∧
      (∀ i, i < n →
        0 ≤ ((List.range n).foldl (subtract_step src fs fd) (dest, 0)).1.data i ∧
        ((List.range n).foldl (subtract_step src fs fd) (dest, 0)).1.data i ≤ 9) ∧
      (∀ i, n ≤ i →
        ((List.range n).foldl (subtract_step src fs fd) (dest, 0)).1.data i = dest.data i) ∧
      ((List.range n).foldl (subtract_step src fs fd) (dest, 0)).1.length = dest.length ∧
      ((List.range n).foldl (subtract_step src fs fd) (dest, 0)).1.negative = dest.negative := by
  intro n
  induction n with
  | zero =>
    intro _ _
    exact ⟨Or.inl rfl, fun i hi => absurd hi (Nat.not_lt_zero i), fun _ _ => rfl, rfl, rfl⟩
  | succ n ih =>
    intro hs hd
    obtain ⟨h1, h2, h3, h4, h5⟩ :=
      ih (fun i hi => hs i (Nat.lt_succ_of_lt hi)) (fun i hi => hd i (Nat.lt_succ_of_lt hi))
    rw [List.range_succ, List.foldl_append]
    simp only [List.foldl_cons, List.foldl_nil]
    generalize (List.range n).foldl (subtract_step src fs fd) (dest, 0) = st at h1 h2 h3 h4 h5 ⊢
    have hsn := hs n (Nat.lt_succ_self n)
    have hdn := hd n (Nat.lt_succ_self n)
    have hstn : st.1.data n = dest.data n := h3 n (le_refl n)
    have hlo : -10 ≤ src.data n * fs + st.1.data n * fd + st.2 := by
      rcases hf with ⟨ha, hb⟩ | ⟨ha, hb⟩ <;> rcases h1 with hc | hc <;>
        rw [ha, hb, hc, hstn] <;> omega
    have hhi : src.data n * fs + st.1.data n * fd + st.2 ≤ 9 := by
      rcases hf with ⟨ha, hb⟩ | ⟨ha, hb⟩ <;> rcases h1 with hc | hc <;>
        rw [ha, hb, hc, hstn] <;> omega
    have hdat : (subtract_step src fs fd st n).1.data = store st.1.data n
        (if src.data n * fs + st.1.data n * fd + st.2 < 0
          then src.data n * fs + st.1.data n * fd + st.2 + 10
          else src.data n * fs + st.1.data n * fd + st.2) := by
      simp only [subtract_step]; split <;> simp [*]
    have hcar : (subtract_step src fs fd st n).2 = 0 ∨ (subtract_step src fs fd st n).2 = -1 := by
      simp only [subtract_step]; split
      · exact Or.inr rfl
      · exact Or.inl rfl
    have hlen : (subtract_step src fs fd st n).1.length = st.1.length := by
      simp only [subtract_step]; split <;> rfl
    have hng : (subtract_step src fs fd st n).1.negative = st.1.negative := by
      simp only [subtract_step]; split <;> rfl
    refine ⟨hcar, fun i hi => ?_, fun i hi => ?_, by rw [hlen, h4], by rw [hng, h5]⟩
    · rw [hdat]
      by_cases hin : i = n
      · subst hin; rw [store_same]; split <;> omega
      · rw [store_other _ _ _ _ hin]; exact h2 i (by omega)
    · rw [hdat, store_other _ _ _ _ (show i ≠ n by omega)]
      exact h3 i (by omega)

theorem subtract_swap_facts (src dest : BigInteger) :
    (subtract_swap src dest).1.data = src.data ∧
    (subtract_swap src dest).1.length = src.length ∧
    (subtract_swap src dest).2.1.data = dest.data ∧
    (subtract_swap src dest).2.1.length = dest.length ∧
    (src.negative ≠ dest.negative →
      (subtract_swap src dest).1.negative ≠ (subtract_swap src dest).2.1.negative) := by
  unfold subtract_swap
  split_ifs with h1 h2 h3
  · exact ⟨rfl, rfl, rfl, rfl, fun _ => by simp⟩
  · exact ⟨rfl, rfl, rfl, rfl, fun h => h⟩
  · exact ⟨rfl, rfl, rfl, rfl, fun _ => by simp⟩
  · exact ⟨rfl, rfl, rfl, rfl, fun h => h⟩

theorem subtract_loop_inv (M : Nat) (src dest : BigInteger) (n : Nat)
    (hs : BufferInvariant M src) (hd : BufferInvariant M dest)
    (hsign : src.negative ≠ dest.negative) (hmax : n ≤ M) (hdl : dest.length ≤ n) :
    ∀ i, i < M →
      (0 ≤ (subtract_loop (subtract_swap src dest).1 (subtract_swap src dest).2.1 n).1.data i ∧
        (subtract_loop (subtract_swap src dest).1 (subtract_swap src dest).2.1 n).1.data i ≤ 9) ∧
      (n ≤ i →
        (subtract_loop (subtract_swap src dest).1 (subtract_swap src dest).2.1 n).1.data i = 0) := by
  obtain ⟨f1, f2, f3, f4, f5⟩ := subtract_swap_facts src dest
  have hflag := f5 hsign
  have hfac : ((if (subtract_swap src dest).1.negative = true then (-1 : Int) else 1) = 1 ∧
        (if (subtract_swap src dest).2.1.negative = true then (-1 : Int) else 1) = -1) ∨
      ((if (subtract_swap src dest).1.negative = true then (-1 : Int) else 1) = -1 ∧
        (if (subtract_swap src dest).2.1.negative = true then (-1 : Int) else 1) = 1) := by
    cases h1 : (subtract_swap src dest).1.negative <;>
      cases h2 : (subtract_swap src dest).2.1.negative <;> simp_all
  obtain ⟨_, l2, l3, _, _⟩ := subtract_fold_inv (subtract_swap src dest).1 _ _ hfac
    (subtract_swap src dest).2.1 n
    (fun i hi => by rw [f1]; exact hs.2.1 i (by omega))
    (fun i hi => by rw [f3]; exact hd.2.1 i (by omega))
  intro i hi
  unfold subtract_loop
  by_cases hin : i < n
  · exact ⟨l2 i hin, fun h => absurd hin (by omega)⟩
  · have e := l3 i (by omega)
    rw [f3] at e
    constructor
    · rw [e]; exact hd.2.1 i hi
    · intro _; rw [e]; exact hd.2.2 i hi (by omega)

theorem subtract_big_integers_inv (M : Nat) (src dest : BigInteger)
    (hs : BufferInvariant M src) (hd : BufferInvariant M dest)
    (hsign : src.negative ≠ dest.negative) :
    BufferInvariant M (subtract_big_integers src dest).2.1 := by
  have hmax : (if src.length > dest.length then src.length else dest.length) ≤ M := by
    have := hs.1; have := hd.1; split <;> omega
  have hdl : dest.length ≤ (if src.length > dest.length then src.length else dest.length) := by
    split <;> omega
  have hdata := subtract_loop_inv M src dest _ hs hd hsign hmax hdl
  unfold subtract_big_integers
  simp only []
  split
  · exact ⟨hmax, fun i hi => (hdata i hi).1, fun i hi hin => (hdata i hi).2 hin⟩
  · exact ⟨hmax, fun i hi => (hdata i hi).1, fun i hi hin => (hdata i hi).2 hin⟩

theorem add_loop_buffer (M : Nat) (src dest : BigInteger) (n : Nat)
    (hs : BufferInvariant M src) (hd : BufferInvariant M dest)
    (hdl : dest.length ≤ n) (hnM : n ≤ M) :
    ((add_loop src dest n).2 = 0 ∨ (add_loop src dest n).2 = 1) ∧
    BufferInvariant M (add_loop src dest n).1 ∧
    ∀ i, i < M → n ≤ i → (add_loop src dest n).1.data i = 0 := by
  obtain ⟨hc, _, hr, hf, _, hl⟩ :=
    add_loop_inv src dest n (fun i hi => hs.2.1 i (by omega)) (fun i hi => hd.2.1 i (by omega))
  generalize add_loop src dest n = r at hc hr hf hl ⊢
  have hup : ∀ i, i < M → n ≤ i → r.1.data i = 0 := by
    intro i hi hin
    rw [hf i hin]; exact hd.2.2 i hi (by omega)
  refine ⟨hc, ⟨?_, fun i hi => ?_, fun i hi hlen => ?_⟩, hup⟩
  · rcases hl with ⟨h1, _⟩ | ⟨_, h2, _, _⟩
    · rw [h1]; exact hd.1
    · omega
  · by_cases hin : i < n
    · exact hr i hin
    · rw [hf i (by omega)]; exact hd.2.1 i hi
  · by_cases hin : i < n
    · rcases hl with ⟨_, h2⟩ | ⟨_, _, _, h4⟩
      · exact h2 i hin
      · exact h4 i hlen hin
    · exact hup i hi (by omega)

/-- Every path of `add_big_integers`, for either value of `absolute` and with
or without error, leaves a destination that satisfies the buffer invariant. -/
theorem add_big_integers_inv (M : Nat) (src dest : BigInteger) (absolute : Bool)
    (hs : BufferInvariant M src) (hd : BufferInvariant M dest) :
    BufferInvariant M (add_big_integers M src dest absolute).2.1 := by
  unfold add_big_integers
  by_cases hsz : src.length = 1 ∧ src.data (src.length - 1) = 0
  · rw [if_pos hsz]; exact hd
  · rw [if_neg hsz]
    by_cases hdz : dest.length = 1 ∧ dest.data (dest.length - 1) = 0
    · rw [if_pos hdz]
      refine ⟨hs.1, fun i hi => ?_, fun i hi hin => ?_⟩
      · simp only [memmove_zero_off]
        split
        · exact hs.2.1 i hi
        · exact hd.2.1 i hi
      · simp only [memmove_zero_off] at hin ⊢
        rw [if_neg (by omega)]
        by_cases hi0 : i = 0
        · subst hi0
          have := hdz.2
          rw [hdz.1] at this
          exact this
        · exact hd.2.2 i hi (by omega)
    · rw [if_neg hdz]
      by_cases hsub : (!absolute && (src.negative ^^ dest.negative)) = true
      · rw [if_pos hsub]
        refine subtract_big_integers_inv M src dest hs hd ?_
        intro h
        rw [h] at hsub
        simp at hsub
      · rw [if_neg hsub]
        have hdl : dest.length ≤ (if src.length > dest.length then src.length else dest.length) := by
          split <;> omega
        have hnM : (if src.length > dest.length then src.length else dest.length) ≤ M := by
          have := hs.1; have := hd.1; split <;> omega
        obtain ⟨hc, hb, hup⟩ := add_loop_buffer M src dest _ hs hd hdl hnM
        simp only []
        generalize (if src.length > dest.length then src.length else dest.length) = n
          at hc hb hup hnM ⊢
        generalize add_loop src dest n = r at hc hb hup ⊢
        by_cases hc0 : r.2 = 0
        · rw [if_neg (not_not.mpr hc0)]; exact hb
        · rw [if_pos hc0]
          by_cases hbig : n + 1 > M
          · rw [if_pos hbig]; exact hb
          · rw [if_neg hbig]
            have hc1 : r.2 = 1 := by
              rcases hc with h | h
              · exact absurd h hc0
              · exact h
            refine ⟨by show n + 1 ≤ M; omega, fun i hi => ?_, fun i hi hin => ?_⟩
            · show 0 ≤ store r.1.data n r.2 i ∧ store r.1.data n r.2 i ≤ 9
              by_cases hin : i = n
              · subst hin; rw [store_same, hc1]; omega
              · rw [store_other _ _ _ _ hin]; exact hb.2.1 i hi
            · have hin2 : n + 1 ≤ i := hin
              show store r.1.data n r.2 i = 0
              rw [store_other _ _ _ _ (by omega)]
              exact hup i hi (by omega)

theorem scale_loop_inv (M : Nat) :
    ∀ (k : Nat) (src dest : BigInteger), BufferInvariant M src → BufferInvariant M dest →
      BufferInvariant M (scale_loop M k src dest).2.1 := by
  intro k
  induction k with
  | zero => intro src dest _ hd; exact hd
  | succ k ih =>
    intro src dest hs hd
    have h1 := add_big_integers_inv M src dest true hs hd
    have h2 := add_big_integers_src M src dest true
    simp only [scale_loop]
    split
    · exact h1
    · rw [h2]; exact ih src _ hs h1

theorem zero_big_integer_inv (M : Nat) (hM : 1 ≤ M) : BufferInvariant M zero_big_integer :=
  wf_buffer_invariant M _ (zero_big_integer_wf M hM)

theorem scale_big_integer_inv (M : Nat) (hM : 1 ≤ M) (src : BigInteger) (scale : Int)
    (hs : BufferInvariant M src) : BufferInvariant M (scale_big_integer M src scale).1 := by
  unfold scale_big_integer
  rw [create_big_integer_zero]
  by_cases hsc : scale = 0
  · rw [if_pos (Or.inr hsc)]
    exact zero_big_integer_inv M hM
  · rw [if_neg (by simp [hsc])]
    exact scale_loop_inv M _ src _ hs (zero_big_integer_inv M hM)

theorem shift_left_inv (M : Nat) (scaled : BigInteger) (i : Nat)
    (h : BufferInvariant M scaled) (hfit : scaled.length + i ≤ M) :
    BufferInvariant M (shift_left scaled i) := by
  obtain ⟨h2, h3, h4⟩ := h
  refine ⟨hfit, fun j hj => ?_, fun j hj hlen => ?_⟩
  · rw [shift_left_data]
    split
    · omega
    · split
      · exact h3 _ (by omega)
      · exact h3 j hj
  · have hlen2 : scaled.length + i ≤ j := hlen
    rw [shift_left_data, if_neg (by omega), if_neg (by omega)]
    exact h4 j hj (by omega)

theorem multiply_loop_inv (M : Nat) (hM : 1 ≤ M) (a b : BigInteger)
    (hb : BufferInvariant M b) :
    ∀ (k i : Nat) (dest : BigInteger), BufferInvariant M dest →
      BufferInvariant M (multiply_loop M a b k i dest).1 := by
  intro k
  induction k with
  | zero => intro i dest hd; exact hd
  | succ k ih =>
    intro i dest hd
    have hsc := scale_big_integer_inv M hM b (a.data i) hb
    simp only [multiply_loop]
    split
    · exact hd
    · split
      · exact hd
      · rename_i hfit
        have hsh := shift_left_inv M _ i hsc (by omega)
        have hadd := add_big_integers_inv M _ dest true hsh hd
        split
        · exact hadd
        · exact ih _ _ hadd

theorem multiply_big_integers_inv (M : Nat) (hM : 1 ≤ M) (a b : BigInteger)
    (hb : BufferInvariant M b) : BufferInvariant M (multiply_big_integers M a b).1 := by
  have hl := multiply_loop_inv M hM a b hb a.length 0 zero_big_integer
    (zero_big_integer_inv M hM)
  unfold multiply_big_integers
  rw [create_big_integer_zero]
  rw [if_neg (by simp)]
  simp only []
  split
  · exact hl
  · split
    · exact ⟨hl.1, hl.2.1, hl.2.2⟩
    · exact hl

/-- C19: with `1 ≤ MAX_LENGTH`, the buffer invariant (`length ≤ MAX_LENGTH`,
every digit in `0 .. 9`, every digit at an index `≥ length` is `0`) is
preserved: if `src` and `dest` satisfy it, then `dest` satisfies it after
`add_big_integers` returns, for either value of `absolute`, on success or on
`EXIT_NUMBER_TOO_BIG`, on the path through `subtract_big_integers` too; and
the BigIntegers returned by `scale_big_integer` and `multiply_big_integers` on
such operands satisfy it, whatever status they report. -/
theorem buffer_invariant_preserved (M : Nat) (src dest : BigInteger) (absolute : Bool)
    (scale : Int) (hM : 1 ≤ M)
    (hs : BufferInvariant M src) (hd : BufferInvariant M dest) :
    BufferInvariant M (add_big_integers M src dest absolute).2.1 ∧
    BufferInvariant M (scale_big_integer M src scale).1 ∧
    BufferInvariant M (multiply_big_integers M src dest).1 :=
  ⟨add_big_integers_inv M src dest absolute hs hd,
   scale_big_integer_inv M hM src scale hs,
   multiply_big_integers_inv M hM src dest hd⟩

/-- The invariant on the subtraction `-21 + 12` (which leaves `91`), on a
scaling and on a product, at `MAX_LENGTH = 3`. -/
theorem buffer_invariant_preserved_witness :
    BufferInvariant 3 (ofDigits true [1, 2, 0]) ∧ BufferInvariant 3 (ofDigits false [2, 1, 0]) ∧
    BufferInvariant 3
      (add_big_integers 3 (ofDigits true [1, 2, 0]) (ofDigits false [2, 1, 0]) false).2.1 ∧
    BufferInvariant 3 (scale_big_integer 3 (ofDigits true [1, 2, 0]) 7).1 ∧
    BufferInvariant 3
      (multiply_big_integers 3 (ofDigits true [1, 2, 0]) (ofDigits false [2, 1, 0])).1 :=
  have h := buffer_invariant_preserved 3 (ofDigits true [1, 2, 0]) (ofDigits false [2, 1, 0])
    false 7 (by decide) (by decide) (by decide)
  ⟨by decide, by decide, h.1, h.2.1, h.2.2⟩

/-! ## Uniqueness of the digit representation -/

theorem digits_value_inj (d e : Nat → Int) :
    ∀ n, (∀ i, i < n → 0 ≤ d i ∧ d i ≤ 9) → (∀ i, i < n → 0 ≤ e i ∧ e i ≤ 9) →
      digits_value d n = digits_value e n → ∀ i, i < n → d i = e i := by
  intro n
  induction n with
  | zero => intro _ _ _ i hi; exact absurd hi (Nat.not_lt_zero i)
  | succ n ih =>
    intro hd he hv i hi
    have hd' : ∀ i, i < n → 0 ≤ d i ∧ d i ≤ 9 := fun i hi => hd i (Nat.lt_succ_of_lt hi)
    have he' : ∀ i, i < n → 0 ≤ e i ∧ e i ≤ 9 := fun i hi => he i (Nat.lt_succ_of_lt hi)
    have d0 := digits_value_nonneg d n (fun i hi => (hd' i hi).1)
    have e0 := digits_value_nonneg e n (fun i hi => (he' i hi).1)
    have d1 := digits_value_lt d n (fun i hi => (hd' i hi).2)
    have e1 := digits_value_lt e n (fun i hi => (he' i hi).2)
    simp only [digits_value] at hv
    have hp : (0 : Int) < 10 ^ n := by positivity
    have htop : d n = e n := by
      rcases lt_trichotomy (d n) (e n) with h | h | h
      · have h2 : (d n + 1) * 10 ^ n ≤ e n * 10 ^ n :=
          mul_le_mul_of_nonneg_right (by omega) (le_of_lt hp)
        have h3 : (d n + 1) * 10 ^ n = d n * 10 ^ n + 10 ^ n := by ring
        omega
      · exact h
      · have h2 : (e n + 1) * 10 ^ n ≤ d n * 10 ^ n :=
          mul_le_mul_of_nonneg_right (by omega) (le_of_lt hp)
        have h3 : (e n + 1) * 10 ^ n = e n * 10 ^ n + 10 ^ n := by ring
        omega
    by_cases hin : i = n
    · subst hin; exact htop
    · rw [htop] at hv
      exact ih hd' he' (by omega) i (by omega)

/-- Two well-formed BigIntegers with non-zero top digits and the same magnitude
have the same length and the same digits. -/
theorem wf_unique (M : Nat) (x y : BigInteger) (hx : WellFormed M x) (hy : WellFormed M y)
    (tx : TopNonzero x) (ty : TopNonzero y) (hmag : magnitude x = magnitude y) :
    x.length = y.length ∧ ∀ i, i < M → x.data i = y.data i := by
  have x1 := wf_top_le_magnitude M x hx tx
  have y1 := wf_top_le_magnitude M y hy ty
  have x2 := wf_magnitude_lt_length M x hx
  have y2 := wf_magnitude_lt_length M y hy
  have hlen : x.length = y.length := by
    rcases lt_trichotomy x.length y.length with h | h | h
    · have := pow_ten_mono x.length (y.length - 1) (by omega)
      omega
    · exact h
    · have := pow_ten_mono y.length (x.length - 1) (by omega)
      omega
  refine ⟨hlen, fun i hi => ?_⟩
  by_cases hil : i < x.length
  · refine digits_value_inj x.data y.data x.length
      (fun j hj => hx.2.2.1 j (by have := hx.2.1; omega))
      (fun j hj => hy.2.2.1 j (by have := hx.2.1; omega)) ?_ i hil
    have : magnitude y = digits_value y.data x.length := by rw [hlen]; rfl
    rw [← this, ← hmag]; rfl
  · rw [hx.2.2.2 i hi (by omega), hy.2.2.2 i hi (by omega)]

/-! ## Commutativity of `add_big_integers` -/

theorem subtract_fold_comm (x y : BigInteger) (fx fy : Int) :
    ∀ n,
      ((List.range n).foldl (subtract_step x fx fy) (y, 0)).2
        = ((List.range n).foldl (subtract_step y fy fx) (x, 0)).2 ∧
      (∀ i, i < n →
        ((List.range n).foldl (subtract_step x fx fy) (y, 0)).1.data i
          = ((List.range n).foldl (subtract_step y fy fx) (x, 0)).1.data i) ∧
      (∀ i, n ≤ i →
        ((List.range n).foldl (subtract_step x fx fy) (y, 0)).1.data i = y.data i) ∧
      (∀ i, n ≤ i →
        ((List.range n).foldl (subtract_step y fy fx) (x, 0)).1.data i = x.data i) := by
  intro n
  induction n with
  | zero =>
    exact ⟨rfl, fun i hi => absurd hi (Nat.not_lt_zero i), fun _ _ => rfl, fun _ _ => rfl⟩
  | succ n ih =>
    obtain ⟨h1, h2, h3, h4⟩ := ih
    rw [List.range_succ, List.foldl_append, List.foldl_append]
    simp only [List.foldl_cons, List.foldl_nil]
    generalize (List.range n).foldl (subtract_step x fx fy) (y, 0) = s at h1 h2 h3 ⊢
    generalize (List.range n).foldl (subtract_step y fy fx) (x, 0) = t at h1 h2 h4 ⊢
    have hsum : x.data n * fx + s.1.data n * fy + s.2 = y.data n * fy + t.1.data n * fx + t.2 := by
      rw [h3 n (le_refl n), h4 n (le_refl n), h1]; ring
    have ds : ∀ (src : BigInteger) (f g : Int) (st : BigInteger × Int),
        (subtract_step src f g st n).1.data = store st.1.data n
          (if src.data n * f + st.1.data n * g + st.2 < 0
            then src.data n * f + st.1.data n * g + st.2 + 10
            else src.data n * f + st.1.data n * g + st.2) ∧
        (subtract_step src f g st n).2
          = (if src.data n * f + st.1.data n * g + st.2 < 0 then -1 else 0) := by
      intro src f g st
      simp only [subtract_step]; split <;> simp [*]
    obtain ⟨a1, a2⟩ := ds x fx fy s
    obtain ⟨b1, b2⟩ := ds y fy fx t
    refine ⟨by rw [a2, b2, hsum], fun i hi => ?_, fun i hi => ?_, fun i hi => ?_⟩
    · rw [a1, b1, hsum]
      by_cases hin : i = n
      · subst hin; rw [store_same, store_same]
      · rw [store_other _ _ _ _ hin, store_other _ _ _ _ hin]; exact h2 i (by omega)
    · rw [a1, store_other _ _ _ _ (show i ≠ n by omega)]; exact h3 i (by omega)
    · rw [b1, store_other _ _ _ _ (show i ≠ n by omega)]; exact h4 i (by omega)

/-- On a negative `x` and a non-negative `y`, `subtract_big_integers` leaves the
same destination whichever of the two is `src`. -/
theorem subtract_big_integers_comm (M : Nat) (x y : BigInteger)
    (hx : WellFormed M x) (hy : WellFormed M y)
    (nx : x.negative = true) (ny : y.negative = false) :
    (subtract_big_integers x y).2.2 = (subtract_big_integers y x).2.2 ∧
    (subtract_big_integers x y).2.1.negative = (subtract_big_integers y x).2.1.negative ∧
    (subtract_big_integers x y).2.1.length = (subtract_big_integers y x).2.1.length ∧
    ∀ i, i < M →
      (subtract_big_integers x y).2.1.data i = (subtract_big_integers y x).2.1.data i := by
  have hmaxeq : (if y.length > x.length then y.length else x.length)
      = (if x.length > y.length then x.length else y.length) := by
    split <;> split <;> omega
  have hxl : x.length ≤ (if x.length > y.length then x.length else y.length) := by
    split <;> omega
  have hyl : y.length ≤ (if x.length > y.length then x.length else y.length) := by
    split <;> omega
  unfold subtract_big_integers subtract_swap subtract_loop
  simp only [nx, ny, hmaxeq, Bool.false_eq_true, if_true, if_false]
  generalize (if x.length > y.length then x.length else y.length) = n at hxl hyl
  by_cases hc : compare_big_integers x y true > 0
  · simp only [hc, if_true, Bool.not_true, Bool.not_false, Bool.false_eq_true, if_false]
    obtain ⟨_, c2, c3, c4⟩ := subtract_fold_comm
      { x with negative := false } { y with negative := true } 1 (-1) n
    refine ⟨by trivial, by trivial, by trivial, fun i hi => ?_⟩
    by_cases hin : i < n
    · exact c2 i hin
    · have e1 := c3 i (by omega)
      have e2 := c4 i (by omega)
      simp only at e1 e2 ⊢
      rw [e1, e2, hy.2.2.2 i hi (by omega), hx.2.2.2 i hi (by omega)]
  · simp only [hc, if_false, if_true]
    obtain ⟨_, c2, c3, c4⟩ := subtract_fold_comm x y (-1) 1 n
    refine ⟨by trivial, by trivial, by trivial, fun i hi => ?_⟩
    by_cases hin : i < n
    · simpa [nx, ny] using c2 i hin
    · have e1 := c3 i (by omega)
      have e2 := c4 i (by omega)
      simp only [nx, ny, Bool.false_eq_true, if_true, if_false] at e1 e2 ⊢
      rw [e1, e2, hy.2.2.2 i hi (by omega), hx.2.2.2 i hi (by omega)]

theorem SameOutcome.symm {M : Nat} {r1 r2 : BigInteger × error_t}
    (h : SameOutcome M r1 r2) : SameOutcome M r2 r1 := by
  obtain ⟨h1, h2⟩ := h
  refine ⟨h1.symm, fun hok => ?_⟩
  obtain ⟨a, b, c⟩ := h2 (h1.trans hok)
  exact ⟨a.symm, b.symm, fun i hi => (c i hi).symm⟩

theorem add_src_zero (M : Nat) (a b : BigInteger) (absolute : Bool)
    (za : a.length = 1 ∧ a.data (a.length - 1) = 0) :
    add_big_integers M a b absolute = (a, b, EXIT_OK) := by
  unfold add_big_integers
  rw [if_pos za]

theorem add_dest_zero (M : Nat) (a b : BigInteger) (absolute : Bool)
    (za : ¬ (a.length = 1 ∧ a.data (a.length - 1) = 0))
    (zb : b.length = 1 ∧ b.data (b.length - 1) = 0) :
    add_big_integers M a b absolute
      = (a, { length := a.length,
              negative := if absolute then b.negative else a.negative,
              data := memmove b.data 0 a.data a.length }, EXIT_OK) := by
  unfold add_big_integers
  rw [if_neg za, if_pos zb]

theorem add_subtract_path (M : Nat) (a b : BigInteger)
    (za : ¬ (a.length = 1 ∧ a.data (a.length - 1) = 0))
    (zb : ¬ (b.length = 1 ∧ b.data (b.length - 1) = 0))
    (hne : a.negative ≠ b.negative) :
    add_big_integers M a b false = subtract_big_integers a b := by
  unfold add_big_integers
  rw [if_neg za, if_neg zb, if_pos]
  cases ha : a.negative <;> cases hb : b.negative <;> simp_all

theorem add_comm_zero (M : Nat) (a b : BigInteger)
    (ha : Canonical M a) (hb : Canonical M b)
    (za : a.length = 1 ∧ a.data (a.length - 1) = 0) :
    SameOutcome M ((add_big_integers M a b false).2.1, (add_big_integers M a b false).2.2)
      ((add_big_integers M b a false).2.1, (add_big_integers M b a false).2.2) := by
  have ha0 : a.data 0 = 0 := by have := za.2; rw [za.1] at this; exact this
  have hazero : ∀ i, i < M → a.data i = 0 := by
    intro i hi
    by_cases h0 : i = 0
    · subst h0; exact ha0
    · exact ha.1.2.2.2 i hi (by omega)
  rw [add_src_zero M a b false za]
  by_cases zb : b.length = 1 ∧ b.data (b.length - 1) = 0
  · have hb0 : b.data 0 = 0 := by have := zb.2; rw [zb.1] at this; exact this
    rw [add_src_zero M b a false zb]
    refine ⟨rfl, fun _ => ⟨?_, ?_, fun i hi => ?_⟩⟩
    · show b.negative = a.negative
      rw [hb.2.2 zb.1 hb0, ha.2.2 za.1 ha0]
    · show b.length = a.length
      rw [zb.1, za.1]
    · show b.data i = a.data i
      rw [hazero i hi]
      by_cases h0 : i = 0
      · subst h0; exact hb0
      · exact hb.1.2.2.2 i hi (by omega)
  · rw [add_dest_zero M b a false zb za]
    refine ⟨rfl, fun _ => ⟨?_, rfl, fun i hi => ?_⟩⟩
    · simp
    · show b.data i = memmove a.data 0 b.data b.length i
      rw [memmove_zero_off]
      split
      · rfl
      · rw [hazero i hi]; exact hb.1.2.2.2 i hi (by omega)

theorem top_nonzero_of_not_zero (M : Nat) (a : BigInteger) (ha : Canonical M a)
    (za : ¬ (a.length = 1 ∧ a.data (a.length - 1) = 0)) : TopNonzero a := by
  by_cases h1 : a.length = 1
  · intro h0; exact za ⟨h1, h0⟩
  · exact ha.2.1 (by have := ha.1.1; omega)

/-- C11: addition is commutative.  For canonical `a` and `b`,
`add_big_integers(src = a, dest = b, false)` and
`add_big_integers(src = b, dest = a, false)` have the same outcome: the same
status and, on `EXIT_OK`, destinations with the same negative flag, the same
length and the same digits. -/
theorem add_big_integers_comm (M : Nat) (a b : BigInteger)
    (ha : Canonical M a) (hb : Canonical M b) :
    (add_big_integers M a b false).2.2 = (add_big_integers M b a false).2.2 ∧
    ((add_big_integers M a b false).2.2 = EXIT_OK →
      (add_big_integers M a b false).2.1.negative
        = (add_big_integers M b a false).2.1.negative ∧
      (add_big_integers M a b false).2.1.length
        = (add_big_integers M b a false).2.1.length ∧
      ∀ i, i < M → (add_big_integers M a b false).2.1.data i
        = (add_big_integers M b a false).2.1.data i) := by
  show SameOutcome M ((add_big_integers M a b false).2.1, (add_big_integers M a b false).2.2)
      ((add_big_integers M b a false).2.1, (add_big_integers M b a false).2.2)
  by_cases za : a.length = 1 ∧ a.data (a.length - 1) = 0
  · exact add_comm_zero M a b ha hb za
  · by_cases zb : b.length = 1 ∧ b.data (b.length - 1) = 0
    · exact (add_comm_zero M b a hb ha zb).symm
    · by_cases hsign : a.negative = b.negative
      · -- digit-wise addition both ways
        obtain ⟨_, p2, p3, p4⟩ :=
          add_big_integers_post M a b false ha.1 hb.1 (Or.inr hsign)
        obtain ⟨_, q2, q3, q4⟩ :=
          add_big_integers_post M b a false hb.1 ha.1 (Or.inr hsign.symm)
        have ta := top_nonzero_of_not_zero M a ha za
        have tb := top_nonzero_of_not_zero M b hb zb
        have hsum : magnitude b + magnitude a = magnitude a + magnitude b := add_comm _ _
        rw [hsum] at q2 q4
        have herr : (add_big_integers M a b false).2.2 = (add_big_integers M b a false).2.2 := by
          rcases p3 with h | h
          · rcases q3 with h' | h'
            · rw [h, h']
            · exact absurd (p2.2 (q2.1 h')) (by rw [h]; decide)
          · rcases q3 with h' | h'
            · exact absurd (q2.2 (p2.1 h)) (by rw [h']; decide)
            · rw [h, h']
        refine ⟨herr, fun hok => ?_⟩
        obtain ⟨p5, p6, p7, p8, _⟩ := p4 hok
        obtain ⟨q5, q6, q7, q8, _⟩ := q4 (herr ▸ hok)
        obtain ⟨u1, u2⟩ := wf_unique M _ _ p5 q5 (p8 ta tb) (q8 tb ta) (by rw [p6, q6])
        exact ⟨by show _ = _; rw [p7, q7, hsign], u1, u2⟩
      · -- subtraction both ways
        rw [add_subtract_path M a b za zb hsign,
          add_subtract_path M b a zb za (fun h => hsign h.symm)]
        cases hna : a.negative with
        | true =>
          have hnb : b.negative = false := by
            cases hb' : b.negative
            · rfl
            · exact absurd (hna.trans hb'.symm) hsign
          obtain ⟨s1, s2, s3, s4⟩ := subtract_big_integers_comm M a b ha.1 hb.1 hna hnb
          exact ⟨s1, fun _ => ⟨s2, s3, s4⟩⟩
        | false =>
          have hnb : b.negative = true := by
            cases hb' : b.negative
            · exact absurd (hna.trans hb'.symm) hsign
            · rfl
          obtain ⟨s1, s2, s3, s4⟩ := subtract_big_integers_comm M b a hb.1 ha.1 hnb hna
          exact ⟨s1.symm, fun _ => ⟨s2.symm, s3.symm, fun i hi => (s4 i hi).symm⟩⟩

/-- The sums `-21 + 12` and `12 + -21` at `MAX_LENGTH = 4`: both are `91`. -/
theorem add_big_integers_comm_witness :
    Canonical 4 (ofDigits true [1, 2]) ∧ Canonical 4 (ofDigits false [2, 1]) ∧
    (add_big_integers 4 (ofDigits true [1, 2]) (ofDigits false [2, 1]) false).2.2
      = (add_big_integers 4 (ofDigits false [2, 1]) (ofDigits true [1, 2]) false).2.2 ∧
    (add_big_integers 4 (ofDigits true [1, 2]) (ofDigits false [2, 1]) false).2.1.length
      = (add_big_integers 4 (ofDigits false [2, 1]) (ofDigits true [1, 2]) false).2.1.length :=
  have h := add_big_integers_comm 4 (ofDigits true [1, 2]) (ofDigits false [2, 1])
    (by decide) (by decide)
  ⟨by decide, by decide, h.1, (h.2 (by decide)).2.1⟩

/-! ## The top digit of a product -/

theorem add_digitwise_top (M : Nat) (src dest : BigInteger) (n : Nat)
    (hs : WellFormed M src) (hd : WellFormed M dest)
    (hdl : dest.length ≤ n) (hnM : n ≤ M) :
    Normal (if (add_loop src dest n).2 ≠ 0 then
        (if n + 1 > M then (src, (add_loop src dest n).1, EXIT_NUMBER_TOO_BIG)
         else (src, { (add_loop src dest n).1 with
                      length := n + 1,
                      data := store (add_loop src dest n).1.data n (add_loop src dest n).2 },
               EXIT_OK))
       else (src, (add_loop src dest n).1, EXIT_OK)).2.1 := by
  have hinv :=
    add_loop_inv src dest n (fun i hi => hs.2.2.1 i (by omega)) (fun i hi => hd.2.2.1 i (by omega))
  generalize add_loop src dest n = r at hinv ⊢
  obtain ⟨hc, _, _, _, _, hl⟩ := hinv
  have hbase : Normal r.1 := by
    intro hmag
    rcases hl with ⟨h1, h2⟩ | ⟨_, _, h3, _⟩
    · exfalso
      apply hmag
      exact digits_value_all_zero r.1.data r.1.length (fun i hi => h2 i (by omega))
    · exact h3
  by_cases hc0 : r.2 = 0
  · rw [if_neg (not_not.mpr hc0)]; exact hbase
  · rw [if_pos hc0]
    by_cases hbig : n + 1 > M
    · rw [if_pos hbig]; exact hbase
    · rw [if_neg hbig]
      intro _
      show store r.1.data n r.2 (n + 1 - 1) ≠ 0
      rw [Nat.add_sub_cancel, store_same]
      exact hc0

/-- With `absolute` set, `add_big_integers` on well-formed operands keeps the
property that a non-zero magnitude has a non-zero top digit. -/
theorem add_big_integers_normal (M : Nat) (src dest : BigInteger)
    (hs : WellFormed M src) (hd : WellFormed M dest)
    (ns : Normal src) (nd : Normal dest) :
    Normal (add_big_integers M src dest true).2.1 := by
  unfold add_big_integers
  by_cases hsz : src.length = 1 ∧ src.data (src.length - 1) = 0
  · rw [if_pos hsz]; exact nd
  · rw [if_neg hsz]
    by_cases hdz : dest.length = 1 ∧ dest.data (dest.length - 1) = 0
    · rw [if_pos hdz]
      intro hmag
      have hm : magnitude src ≠ 0 := by
        intro h0
        apply hmag
        show digits_value (memmove dest.data 0 src.data src.length) src.length = 0
        rw [digits_value_congr _ src.data src.length
          (fun i hi => by rw [memmove_zero_off, if_pos hi])]
        exact h0
      show memmove dest.data 0 src.data src.length (src.length - 1) ≠ 0
      rw [memmove_zero_off, if_pos (by have := hs.1; omega)]
      exact ns hm
    · rw [if_neg hdz]
      simp only [Bool.not_true, Bool.false_and, Bool.false_eq_true, if_false]
      exact add_digitwise_top M src dest _ hs hd (by split <;> omega)
        (by have := hs.2.1; have := hd.2.1; split <;> omega)

theorem normal_of_no_leading_zero (M : Nat) (b : BigInteger) (h : WellFormed M b)
    (hnl : NoLeadingZero b) : Normal b := by
  intro hmag
  by_cases h1 : b.length = 1
  · intro h0
    exact hmag (magnitude_of_zero b ⟨h1, h0⟩)
  · exact hnl (by have := h.1; omega)

theorem shift_left_normal (M : Nat) (scaled : BigInteger) (i : Nat)
    (h : WellFormed M scaled) (hn : Normal scaled) : Normal (shift_left scaled i) := by
  intro hmag
  have hm : magnitude scaled ≠ 0 := by
    intro h0
    apply hmag
    rw [shift_left_magnitude, h0, zero_mul]
  have ht := hn hm
  show (shift_left scaled i).data (scaled.length + i - 1) ≠ 0
  rw [shift_left_data, if_neg (by have := h.1; omega), if_pos (by have := h.1; omega)]
  have : scaled.length + i - 1 - i = scaled.length - 1 := by have := h.1; omega
  rw [this]
  exact ht

theorem multiply_loop_normal (M : Nat) (a b : BigInteger)
    (ha : WellFormed M a) (hb : WellFormed M b) (hbl : NoLeadingZero b) :
    ∀ (k i : Nat) (dest : BigInteger), i + k = a.length → WellFormed M dest → Normal dest →
      (multiply_loop M a b k i dest).2 = EXIT_OK → Normal (multiply_loop M a b k i dest).1 := by
  intro k
  induction k with
  | zero => intro i dest _ _ hn _; exact hn
  | succ k ih =>
    intro i dest hik hd hn
    have hi : i < a.length := by omega
    have hdig := ha.2.2.1 i (lt_of_lt_of_le hi ha.2.1)
    obtain ⟨_, _, s3⟩ := scale_big_integer_post M b (a.data i) hb hdig.1
    simp only [multiply_loop]
    generalize scale_big_integer M b (a.data i) = sc at s3 ⊢
    by_cases hsc : sc.2 = EXIT_OK
    · rw [if_neg (not_not.mpr hsc)]
      obtain ⟨t1, _, _, t4⟩ := s3 hsc
      by_cases hfit : sc.1.length + i > M
      · rw [if_pos hfit]; intro h; cases h
      · rw [if_neg hfit]
        have hswf := shift_left_wf M sc.1 i t1 (by omega)
        have hsn := shift_left_normal M sc.1 i t1
          (normal_of_no_leading_zero M sc.1 t1 (t4 hbl))
        have hpost := add_big_integers_post M (shift_left sc.1 i) dest true hswf hd (Or.inl rfl)
        have hnorm := add_big_integers_normal M (shift_left sc.1 i) dest hswf hd hsn hn
        generalize add_big_integers M (shift_left sc.1 i) dest true = r at hpost hnorm ⊢
        by_cases hok : r.2.2 = EXIT_OK
        · rw [if_neg (not_not.mpr hok)]
          exact ih (i + 1) r.2.1 (by omega) (hpost.2.2.2 hok).1 hnorm
        · rw [if_pos hok]; intro h; exact absurd h hok
    · rw [if_pos hsc]; intro h; exact absurd h hsc

/-- A successful product of well-formed operands whose magnitude is not zero
has a non-zero top digit. -/
theorem multiply_big_integers_normal (M : Nat) (a b : BigInteger)
    (ha : WellFormed M a) (hb : WellFormed M b) (hbl : NoLeadingZero b)
    (hok : (multiply_big_integers M a b).2 = EXIT_OK) :
    Normal (multiply_big_integers M a b).1 := by
  have hM : 1 ≤ M := le_trans ha.1 ha.2.1
  have hl := multiply_loop_normal M a b ha hb hbl a.length 0 zero_big_integer (by omega)
    (zero_big_integer_wf M hM) (fun h => absurd zero_big_integer_magnitude h)
  unfold multiply_big_integers at hok ⊢
  rw [create_big_integer_zero] at hok ⊢
  rw [if_neg (by simp)] at hok ⊢
  simp only [] at hok ⊢
  by_cases hlo : (multiply_loop M a b a.length 0 zero_big_integer).2 = EXIT_OK
  · rw [if_neg (not_not.mpr hlo)]
    split
    · exact hl hlo
    · exact hl hlo
  · rw [if_pos hlo] at hok
    exact absurd hok hlo

/-! ## The multiplicative identity -/

theorem create_big_integer_one (M : Nat) :
    create_big_integer M ['1'] = (one_big_integer, EXIT_OK) := by
  have h1 : ('1' : Char).isDigit = true := by decide
  have h2 : digit_value '1' = 1 := by decide
  have h3 : ¬ ('1' = '-') := by decide
  simp [create_big_integer, parse_raw_integer, parse_raw_loop, h1, h2, h3,
    reverse_big_integer_data, one_big_integer]

theorem one_big_integer_wf (M : Nat) (hM : 1 ≤ M) : WellFormed M one_big_integer := by
  refine ⟨le_refl 1, hM, fun i _ => ?_, fun i _ hi => ?_⟩
  · show 0 ≤ store (fun _ => (0 : Int)) 0 1 i ∧ store (fun _ => (0 : Int)) 0 1 i ≤ 9
    unfold store; split <;> simp
  · have hi1 : 1 ≤ i := hi
    show store (fun _ => (0 : Int)) 0 1 i = 0
    rw [store_other _ _ _ _ (by omega)]

theorem one_big_integer_magnitude : magnitude one_big_integer = 1 := by
  simp [magnitude, one_big_integer, digits_value, store]

theorem one_big_integer_no_leading_zero : NoLeadingZero one_big_integer := by
  intro h
  exact absurd h (by decide)

/-- The product of the canonical zero and `1` is the zero of length `1`. -/
theorem multiply_zero_one (M : Nat) (hM : 1 ≤ M) (a : BigInteger)
    (hlen : a.length = 1) (h0 : a.data 0 = 0) (hneg : a.negative = false) :
    multiply_big_integers M a one_big_integer = (zero_big_integer, EXIT_OK) := by
  have hsc : scale_big_integer M one_big_integer 0 = (zero_big_integer, EXIT_OK) := by
    unfold scale_big_integer
    rw [create_big_integer_zero, if_pos (Or.inr rfl)]
  have hfit : ¬ (zero_big_integer.length + 0 > M) := by
    show ¬ (1 + 0 > M)
    omega
  have hadd : add_big_integers M (shift_left zero_big_integer 0) zero_big_integer true
      = (shift_left zero_big_integer 0, zero_big_integer, EXIT_OK) := by
    apply add_src_zero
    constructor
    · rfl
    · rw [shift_left_data]; simp [zero_big_integer]
  have hloop : multiply_loop M a one_big_integer 1 0 zero_big_integer
      = (zero_big_integer, EXIT_OK) := by
    simp only [multiply_loop, h0, hsc]
    rw [if_neg (by simp), if_neg hfit, hadd]
    simp
  unfold multiply_big_integers
  rw [create_big_integer_zero, hlen]
  simp only []
  rw [if_neg (by simp), hloop]
  simp [hneg, one_big_integer]

/-- C14: one is the multiplicative identity.  For every canonical `a` (any
sign, any length up to `MAX_LENGTH`, zero included) and `one` the parse of
`1`, `multiply_big_integers(a, one)` reports `EXIT_OK` and returns a
BigInteger with the negative flag, the length and the digits of `a`. -/
theorem multiply_big_integers_one (M : Nat) (a : BigInteger) (ha : Canonical M a) :
    (multiply_big_integers M a (create_big_integer M ['1']).1).2 = EXIT_OK ∧
    (multiply_big_integers M a (create_big_integer M ['1']).1).1.negative = a.negative ∧
    (multiply_big_integers M a (create_big_integer M ['1']).1).1.length = a.length ∧
    ∀ i, i < M →
      (multiply_big_integers M a (create_big_integer M ['1']).1).1.data i = a.data i := by
  have hM : 1 ≤ M := le_trans ha.1.1 ha.1.2.1
  rw [create_big_integer_one]
  show (multiply_big_integers M a one_big_integer).2 = EXIT_OK ∧
    (multiply_big_integers M a one_big_integer).1.negative = a.negative ∧
    (multiply_big_integers M a one_big_integer).1.length = a.length ∧
    ∀ i, i < M → (multiply_big_integers M a one_big_integer).1.data i = a.data i
  by_cases za : a.length = 1 ∧ a.data (a.length - 1) = 0
  · have h0 : a.data 0 = 0 := by have := za.2; rw [za.1] at this; exact this
    have hneg := ha.2.2 za.1 h0
    rw [multiply_zero_one M hM a za.1 h0 hneg]
    refine ⟨rfl, hneg.symm, za.1.symm, fun i hi => ?_⟩
    show (0 : Int) = a.data i
    by_cases hi0 : i = 0
    · subst hi0; exact h0.symm
    · exact (ha.1.2.2.2 i hi (by omega)).symm
  · have ta := top_nonzero_of_not_zero M a ha za
    obtain ⟨p1, p2, p3⟩ := multiply_big_integers_post M a one_big_integer ha.1
      (one_big_integer_wf M hM) one_big_integer_no_leading_zero
    rw [one_big_integer_magnitude, mul_one] at p1 p3
    have hlt := wf_magnitude_lt M a ha.1
    have hok : (multiply_big_integers M a one_big_integer).2 = EXIT_OK := by
      rcases p2 with h | h
      · exact h
      · exact absurd (p1.1 h) (not_le.mpr hlt)
    obtain ⟨q1, q2, q3⟩ := p3 hok
    have hnorm := multiply_big_integers_normal M a one_big_integer ha.1
      (one_big_integer_wf M hM) one_big_integer_no_leading_zero hok
    have hpos := wf_top_magnitude_pos M a ha.1 ta
    have tr : TopNonzero (multiply_big_integers M a one_big_integer).1 :=
      hnorm (by rw [q2]; omega)
    obtain ⟨u1, u2⟩ := wf_unique M _ a q1 ha.1 tr ta q2
    refine ⟨hok, ?_, u1, u2⟩
    rw [q3]
    cases a.negative <;> rfl

/-- The product `-120 * 1` at `MAX_LENGTH = 3`. -/
theorem multiply_big_integers_one_witness :
    Canonical 3 (ofDigits true [0, 2, 1]) ∧
    (multiply_big_integers 3 (ofDigits true [0, 2, 1]) (create_big_integer 3 ['1']).1).2
      = EXIT_OK ∧
    (multiply_big_integers 3 (ofDigits true [0, 2, 1]) (create_big_integer 3 ['1']).1).1.length
      = 3 :=
  have h := multiply_big_integers_one 3 (ofDigits true [0, 2, 1]) (by decide)
  ⟨by decide, h.1, h.2.2.1⟩

/-! ## The loops of `multiply_matrices` -/

theorem col_loop_spec (M : Nat) (a b : Matrix) (row : Nat) :
    ∀ (k col : Nat) (result m : Matrix) (e : error_t),
      col_loop M a b row k col result = some (m, e) →
      m.rows = result.rows ∧ m.columns = result.columns ∧
      ∃ s, col ≤ s ∧ s ≤ col + k ∧
        (∀ c, col ≤ c → c < s →
          ∃ x, cell_result M a b row c = some (x, EXIT_OK) ∧ m.data row c = some x) ∧
        (∀ r c, ¬ (r = row ∧ col ≤ c ∧ c < s) → m.data r c = result.data r c) ∧
        ((s = col + k ∧ e = EXIT_OK) ∨
         (s < col + k ∧ e ≠ EXIT_OK ∧ ∃ x, cell_result M a b row s = some (x, e))) := by
  intro k
  induction k with
  | zero =>
    intro col result m e h
    simp only [col_loop, Option.some.injEq, Prod.mk.injEq] at h
    obtain ⟨h1, h2⟩ := h
    subst h1; subst h2
    exact ⟨rfl, rfl, col, le_refl _, le_refl _, fun c h1 h2 => absurd h2 (by omega),
      fun _ _ _ => rfl, Or.inl ⟨rfl, rfl⟩⟩
  | succ k ih =>
    intro col result m e h
    simp only [col_loop, create_big_integer_zero] at h
    rw [if_neg (by simp)] at h
    have hcell : cell_loop M a b row col a.columns 0 zero_big_integer
        = cell_result M a b row col := rfl
    rw [hcell] at h
    cases hc : cell_result M a b row col with
    | none => rw [hc] at h; simp at h
    | some p =>
      obtain ⟨bigint, error⟩ := p
      rw [hc] at h
      simp only [] at h
      by_cases herr : error = EXIT_OK
      · subst herr
        rw [if_neg (by simp)] at h
        obtain ⟨i1, i2, s, s1, s2, s3, s4, s5⟩ := ih (col + 1) _ m e h
        refine ⟨i1, i2, s, by omega, by omega, fun c h1 h2 => ?_, fun r c hn => ?_, ?_⟩
        · by_cases hcc : c = col
          · subst hcc
            refine ⟨bigint, hc, ?_⟩
            rw [s4 row c (by omega)]
            simp [set_cell]
          · exact s3 c (by omega) h2
        · rw [s4 r c (by intro hx; exact hn ⟨hx.1, by omega, hx.2.2⟩)]
          simp only [set_cell]
          rw [if_neg]
          intro hx
          exact hn ⟨hx.1, by omega, by omega⟩
        · rcases s5 with ⟨h1, h2⟩ | ⟨h1, h2, h3⟩
          · exact Or.inl ⟨by omega, h2⟩
          · exact Or.inr ⟨by omega, h2, h3⟩
      · rw [if_pos herr] at h
        simp only [Option.some.injEq, Prod.mk.injEq] at h
        obtain ⟨h1, h2⟩ := h
        subst h1; subst h2
        exact ⟨rfl, rfl, col, le_refl _, by omega, fun c h1 h2 => absurd h2 (by omega),
          fun _ _ _ => rfl, Or.inr ⟨by omega, herr, bigint, hc⟩⟩

theorem row_loop_spec (M : Nat) (a b : Matrix) (C : Nat) :
    ∀ (k row : Nat) (result m : Matrix) (e : error_t), result.columns = C →
      row_loop M a b k row result = some (m, e) →
      m.rows = result.rows ∧ m.columns = C ∧
      ∃ s t, row ≤ s ∧ s ≤ row + k ∧
        (∀ r c, row ≤ r → c < C → (r < s ∨ (r = s ∧ c < t)) →
          ∃ x, cell_result M a b r c = some (x, EXIT_OK) ∧ m.data r c = some x) ∧
        (∀ r c, ¬ (row ≤ r ∧ c < C ∧ (r < s ∨ (r = s ∧ c < t))) →
          m.data r c = result.data r c) ∧
        ((s = row + k ∧ t = 0 ∧ e = EXIT_OK) ∨
         (s < row + k ∧ t < C ∧ e ≠ EXIT_OK ∧ ∃ x, cell_result M a b s t = some (x, e))) := by
  intro k
  induction k with
  | zero =>
    intro row result m e hC h
    simp only [row_loop, Option.some.injEq, Prod.mk.injEq] at h
    obtain ⟨h1, h2⟩ := h
    subst h1; subst h2
    exact ⟨rfl, hC, row, 0, le_refl _, le_refl _, fun r c h1 _ h3 => absurd h3 (by omega),
      fun _ _ _ => rfl, Or.inl ⟨rfl, rfl, rfl⟩⟩
  | succ k ih =>
    intro row result m e hC h
    simp only [row_loop] at h
    cases hcol : col_loop M a b row result.columns 0 result with
    | none => rw [hcol] at h; simp at h
    | some p =>
      obtain ⟨result1, error⟩ := p
      rw [hcol] at h
      simp only [] at h
      obtain ⟨c1, c2, s, _, s2, s3, s4, s5⟩ := col_loop_spec M a b row _ 0 result result1 error hcol
      rw [hC] at s2 s5 c2
      by_cases herr : error = EXIT_OK
      · subst herr
        rw [if_neg (by simp)] at h
        have hsC : s = C := by
          rcases s5 with ⟨h1, _⟩ | ⟨_, h2, _⟩
          · omega
          · exact absurd rfl h2
        subst hsC
        obtain ⟨i1, i2, s', t, r1, r2, r3, r4, r5⟩ := ih (row + 1) result1 m e c2 h
        refine ⟨by rw [i1, c1], i2, s', t, by omega, by omega, fun r c h1 h2 h3 => ?_,
          fun r c hn => ?_, ?_⟩
        · by_cases hr : r = row
          · subst hr
            obtain ⟨x, x1, x2⟩ := s3 c (Nat.zero_le c) h2
            refine ⟨x, x1, ?_⟩
            rw [r4 r c (by omega), x2]
          · exact r3 r c (by omega) h2 h3
        · rw [r4 r c (by intro hx; exact hn ⟨by omega, hx.2.1, hx.2.2⟩)]
          apply s4
          intro hx
          exact hn ⟨by omega, hx.2.2, by omega⟩
        · rcases r5 with ⟨h1, h2, h3⟩ | ⟨h1, h2, h3⟩
          · exact Or.inl ⟨by omega, h2, h3⟩
          · exact Or.inr ⟨by omega, h2, h3⟩
      · rw [if_pos herr] at h
        simp only [Option.some.injEq, Prod.mk.injEq] at h
        obtain ⟨h1, h2⟩ := h
        subst h1; subst h2
        have hfail : s < C ∧ ∃ x, cell_result M a b row s = some (x, error) := by
          rcases s5 with ⟨_, h2⟩ | ⟨h1, _, h3⟩
          · exact absurd h2 herr
          · exact ⟨by omega, h3⟩
        refine ⟨c1, c2, row, s, le_refl _, by omega, fun r c h1 h2 h3 => ?_,
          fun r c hn => ?_, Or.inr ⟨by omega, hfail.1, herr, hfail.2⟩⟩
        · have hr : r = row ∧ c < s := by omega
          obtain ⟨hr1, hr2⟩ := hr
          subst hr1
          exact s3 c (Nat.zero_le c) hr2
        · apply s4
          intro hx
          exact hn ⟨by omega, by omega, Or.inr ⟨hx.1, hx.2.2⟩⟩

/-- What `multiply_matrices` hands back, entered with `*error == EXIT_OK`: a
matrix of `a.rows` by `b.columns` whose cells before a position `(s, t)` (in
row-major order) hold their finished sums and whose other cells are NULL;
either all cells are finished and the status is `EXIT_OK`, or `(s, t)` is the
cell whose accumulation failed and the status is the one it failed with. -/
theorem multiply_matrices_spec (M : Nat) (a b m : Matrix) (e : error_t)
    (h : multiply_matrices M a b EXIT_OK = some (m, e)) :
    m.rows = a.rows ∧ m.columns = b.columns ∧
    ∃ s t, s ≤ a.rows ∧
      (∀ r c, c < b.columns → (r < s ∨ (r = s ∧ c < t)) →
        ∃ x, cell_result M a b r c = some (x, EXIT_OK) ∧ m.data r c = some x) ∧
      (∀ r c, ¬ (c < b.columns ∧ (r < s ∨ (r = s ∧ c < t))) → m.data r c = none) ∧
      ((s = a.rows ∧ t = 0 ∧ e = EXIT_OK) ∨
       (s < a.rows ∧ t < b.columns ∧ e ≠ EXIT_OK ∧
          ∃ x, cell_result M a b s t = some (x, e))) := by
  unfold multiply_matrices at h
  simp only [] at h
  rw [if_neg (by simp)] at h
  obtain ⟨i1, i2, s, t, _, r2, r3, r4, r5⟩ :=
    row_loop_spec M a b b.columns a.rows 0 (create_matrix a.rows b.columns) m e rfl h
  refine ⟨i1, i2, s, t, by simpa using r2, fun r c h1 h2 => r3 r c (Nat.zero_le r) h1 h2,
    fun r c hn => ?_, ?_⟩
  · rw [r4 r c (by intro hx; exact hn ⟨hx.2.1, hx.2.2⟩)]
    rfl
  · rcases r5 with ⟨h1, h2, h3⟩ | ⟨h1, h2, h3⟩
    · exact Or.inl ⟨by simpa using h1, h2, h3⟩
    · exact Or.inr ⟨by simpa using h1, h2, h3⟩

/-- C17, as stated, fails: at `MAX_LENGTH = 3`, `[[1, 99]]` times
`[[1, 1], [1, 99]]` fails with `EXIT_NUMBER_TOO_BIG` in the second cell
(`99 * 99` has four digits), and the caller receives the result matrix with
the first cell filled (`100`) and the second one NULL. -/
theorem multiply_matrices_returns_partial_result :
    observe (multiply_matrices 3
      (ofRows 1 2 [[ofDigits false [1], ofDigits false [9, 9]]])
      (ofRows 2 2 [[ofDigits false [1], ofDigits false [1]],
                   [ofDigits false [1], ofDigits false [9, 9]]]) EXIT_OK)
      = some (EXIT_NUMBER_TOO_BIG, 1, 2, [[some 100, none]]) := rfl

/-! ## A failing call inside `multiply_matrices` -/

/-- Running `j` passes of the innermost loop without error and then `k` more
is running `j + k` passes. -/
theorem cell_loop_prefix (M : Nat) (a b : Matrix) (row col : Nat) :
    ∀ (j i k : Nat) (bigint acc : BigInteger),
      cell_loop M a b row col j i bigint = some (acc, EXIT_OK) →
      cell_loop M a b row col (j + k) i bigint = cell_loop M a b row col k (i + j) acc := by
  intro j
  induction j with
  | zero =>
    intro i k bigint acc h
    simp only [cell_loop, Option.some.injEq, Prod.mk.injEq] at h
    rw [Nat.zero_add, Nat.add_zero, h.1]
  | succ j ih =>
    intro i k bigint acc h
    have e1 : j + 1 + k = (j + k) + 1 := by omega
    have e2 : i + (j + 1) = i + 1 + j := by omega
    rw [e1, e2]
    simp only [cell_loop] at h ⊢
    cases hy : a.data row i with
    | none => rw [hy] at h; simp at h
    | some y =>
      cases hz : b.data i col with
      | none => rw [hy, hz] at h; simp at h
      | some z =>
        rw [hy, hz] at h
        simp only [] at h ⊢
        by_cases hp : (multiply_big_integers M y z).2 = EXIT_OK
        · rw [if_neg (not_not.mpr hp)] at h ⊢
          by_cases hadd :
              (add_big_integers M (multiply_big_integers M y z).1 bigint false).2.2 = EXIT_OK
          · rw [if_neg (not_not.mpr hadd)] at h ⊢
            exact ih (i + 1) k _ acc h
          · rw [if_pos hadd] at h
            simp only [Option.some.injEq, Prod.mk.injEq] at h
            exact absurd h.2 hadd
        · rw [if_pos hp] at h
          simp only [Option.some.injEq, Prod.mk.injEq] at h
          exact absurd h.2 hp

/-- A cell whose first `j` terms were accumulated into `acc` and whose call
for term `j` fails with `e` ends with the status `e`. -/
theorem cell_result_fail (M : Nat) (a b : Matrix) (row col j : Nat)
    (y z acc : BigInteger) (e : error_t) (hj : j < a.columns)
    (hacc : cell_loop M a b row col j 0 zero_big_integer = some (acc, EXIT_OK))
    (hy : a.data row j = some y) (hz : b.data j col = some z) (he : e ≠ EXIT_OK)
    (hfail : (multiply_big_integers M y z).2 = e ∨
      ((multiply_big_integers M y z).2 = EXIT_OK ∧
        (add_big_integers M (multiply_big_integers M y z).1 acc false).2.2 = e)) :
    ∃ x, cell_result M a b row col = some (x, e) := by
  unfold cell_result
  obtain ⟨k, hk⟩ : ∃ k, a.columns = j + (k + 1) := ⟨a.columns - j - 1, by omega⟩
  rw [hk, cell_loop_prefix M a b row col j 0 (k + 1) zero_big_integer acc hacc, Nat.zero_add]
  simp only [cell_loop, hy, hz]
  rcases hfail with h | ⟨h1, h2⟩
  · rw [if_pos (by rw [h]; exact he)]
    exact ⟨acc, by rw [h]⟩
  · rw [if_neg (not_not.mpr h1), if_pos (by rw [h2]; exact he)]
    exact ⟨_, by rw [h2]⟩

/-- The loop over `col`, run from the cells' outcomes: when the cells
`col .. s - 1` of the row finish and either `s` is the end of the loop or cell
`s` fails with `e`, the loop returns the status and the matrix with exactly
those cells filled in. -/
theorem col_loop_run (M : Nat) (a b : Matrix) (row : Nat) (e : error_t) :
    ∀ (k col : Nat) (result : Matrix) (s : Nat), col ≤ s → s ≤ col + k →
      (∀ c, col ≤ c → c < s → ∃ x, cell_result M a b row c = some (x, EXIT_OK)) →
      ((s = col + k ∧ e = EXIT_OK) ∨
       (s < col + k ∧ e ≠ EXIT_OK ∧ ∃ x, cell_result M a b row s = some (x, e))) →
      ∃ m, col_loop M a b row k col result = some (m, e) ∧
        m.rows = result.rows ∧ m.columns = result.columns ∧
        (∀ c, col ≤ c → c < s →
          ∃ x, cell_result M a b row c = some (x, EXIT_OK) ∧ m.data row c = some x) ∧
        (∀ r c, ¬ (r = row ∧ col ≤ c ∧ c < s) → m.data r c = result.data r c) := by
  intro k
  induction k with
  | zero =>
    intro col result s h1 h2 _ hend
    have he : e = EXIT_OK := by
      rcases hend with ⟨_, h⟩ | ⟨h, _⟩
      · exact h
      · omega
    subst he
    exact ⟨result, rfl, rfl, rfl, fun c c1 c2 => absurd c2 (by omega), fun _ _ _ => rfl⟩
  | succ k ih =>
    intro col result s h1 h2 hpre hend
    have hcell : cell_loop M a b row col a.columns 0 zero_big_integer
        = cell_result M a b row col := rfl
    by_cases hs : s = col
    · -- the cell at `col` fails
      subst hs
      obtain ⟨x, hx, hne⟩ : ∃ x, cell_result M a b row s = some (x, e) ∧ e ≠ EXIT_OK := by
        rcases hend with ⟨h, _⟩ | ⟨_, h3, x, hx⟩
        · omega
        · exact ⟨x, hx, h3⟩
      refine ⟨result, ?_, rfl, rfl, fun c c1 c2 => absurd c2 (by omega), fun _ _ _ => rfl⟩
      simp only [col_loop, create_big_integer_zero]
      rw [if_neg (by simp), hcell, hx]
      simp only []
      rw [if_pos hne]
    · -- the cell at `col` finishes
      obtain ⟨x, hx⟩ := hpre col (le_refl _) (by omega)
      obtain ⟨m, m1, m2, m3, m4, m5⟩ := ih (col + 1) (set_cell result row col x) s
        (by omega) (by omega) (fun c c1 c2 => hpre c (by omega) c2)
        (by
          rcases hend with ⟨h, h'⟩ | ⟨h, h'⟩
          · exact Or.inl ⟨by omega, h'⟩
          · exact Or.inr ⟨by omega, h'⟩)
      refine ⟨m, ?_, m2, m3, fun c c1 c2 => ?_, fun r c hn => ?_⟩
      · simp only [col_loop, create_big_integer_zero]
        rw [if_neg (by simp), hcell, hx]
        simp only []
        rw [if_neg (by simp)]
        exact m1
      · by_cases hcc : c = col
        · subst hcc
          refine ⟨x, hx, ?_⟩
          rw [m5 row c (by omega)]
          simp [set_cell]
        · exact m4 c (by omega) c2
      · rw [m5 r c (by intro hx'; exact hn ⟨hx'.1, by omega, hx'.2.2⟩)]
        simp only [set_cell]
        rw [if_neg]
        intro hx'
        exact hn ⟨hx'.1, by omega, by omega⟩

/-- The loop over `row`, run from the cells' outcomes: when every cell before
`(s, t)` finishes and either `(s, t)` is the end of the loop or cell `(s, t)`
fails with `e`, the loop returns the status and the matrix with exactly those
cells filled in. -/
theorem row_loop_run (M : Nat) (a b : Matrix) (C : Nat) (e : error_t) :
    ∀ (k row : Nat) (result : Matrix) (s t : Nat), result.columns = C →
      row ≤ s → s ≤ row + k →
      (∀ r c, row ≤ r → c < C → (r < s ∨ (r = s ∧ c < t)) →
        ∃ x, cell_result M a b r c = some (x, EXIT_OK)) →
      ((s = row + k ∧ t = 0 ∧ e = EXIT_OK) ∨
       (s < row + k ∧ t < C ∧ e ≠ EXIT_OK ∧ ∃ x, cell_result M a b s t = some (x, e))) →
      ∃ m, row_loop M a b k row result = some (m, e) ∧
        m.rows = result.rows ∧ m.columns = C ∧
        (∀ r c, row ≤ r → c < C → (r < s ∨ (r = s ∧ c < t)) →
          ∃ x, cell_result M a b r c = some (x, EXIT_OK) ∧ m.data r c = some x) ∧
        (∀ r c, ¬ (row ≤ r ∧ c < C ∧ (r < s ∨ (r = s ∧ c < t))) →
          m.data r c = result.data r c) := by
  intro k
  induction k with
  | zero =>
    intro row result s t hC h1 h2 _ hend
    have he : e = EXIT_OK ∧ t = 0 := by
      rcases hend with ⟨_, h, h'⟩ | ⟨h, _⟩
      · exact ⟨h', h⟩
      · omega
    obtain ⟨he1, he2⟩ := he
    subst he1
    exact ⟨result, rfl, rfl, hC, fun r c c1 _ c3 => absurd c3 (by omega), fun _ _ _ => rfl⟩
  | succ k ih =>
    intro row result s t hC h1 h2 hpre hend
    by_cases hs : s = row
    · -- the row `row` is the one that fails
      subst hs
      obtain ⟨ht, hne, x, hx⟩ :
          t < C ∧ e ≠ EXIT_OK ∧ ∃ x, cell_result M a b s t = some (x, e) := by
        rcases hend with ⟨h, _⟩ | ⟨_, h3⟩
        · omega
        · exact h3
      obtain ⟨m, m1, m2, m3, m4, m5⟩ := col_loop_run M a b s e result.columns 0 result t
        (Nat.zero_le t) (by omega)
        (fun c _ c2 => hpre s c (le_refl _) (by omega) (Or.inr ⟨rfl, c2⟩))
        (Or.inr ⟨by omega, hne, x, hx⟩)
      refine ⟨m, ?_, m2, by rw [m3, hC], fun r c c1 c2 c3 => ?_, fun r c hn => ?_⟩
      · simp only [row_loop]
        rw [m1]
        simp only []
        rw [if_pos hne]
      · have hr : r = s ∧ c < t := by omega
        obtain ⟨hr1, hr2⟩ := hr
        subst hr1
        exact m4 c (Nat.zero_le c) hr2
      · apply m5
        intro hx'
        exact hn ⟨by omega, by omega, Or.inr ⟨hx'.1, hx'.2.2⟩⟩
    · -- the row `row` finishes
      obtain ⟨m0, n1, n2, n3, n4, n5⟩ := col_loop_run M a b row EXIT_OK result.columns 0 result
        result.columns (Nat.zero_le _) (by omega)
        (fun c _ c2 => hpre row c (le_refl _) (by omega) (Or.inl (by omega)))
        (Or.inl ⟨by omega, rfl⟩)
      obtain ⟨m, m1, m2, m3, m4, m5⟩ := ih (row + 1) m0 s t (by rw [n3, hC]) (by omega)
        (by omega) (fun r c c1 c2 c3 => hpre r c (by omega) c2 c3)
        (by
          rcases hend with ⟨h, h'⟩ | ⟨h, h'⟩
          · exact Or.inl ⟨by omega, h'⟩
          · exact Or.inr ⟨by omega, h'⟩)
      refine ⟨m, ?_, by rw [m2, n2], m3, fun r c c1 c2 c3 => ?_, fun r c hn => ?_⟩
      · simp only [row_loop]
        rw [n1]
        simp only []
        rw [if_neg (by simp)]
        exact m1
      · by_cases hr : r = row
        · subst hr
          obtain ⟨x, x1, x2⟩ := n4 c (Nat.zero_le c) (by omega)
          refine ⟨x, x1, ?_⟩
          rw [m5 r c (by omega), x2]
        · exact m4 r c (by omega) c2 c3
      · rw [m5 r c (by intro hx'; exact hn ⟨by omega, hx'.2.1, hx'.2.2⟩)]
        apply n5
        intro hx'
        exact hn ⟨by omega, by omega, Or.inl (by omega)⟩

/-- C17, amended: whenever a `multiply_big_integers` or `add_big_integers`
call inside `multiply_matrices` fails, `multiply_matrices` reports that error
and hands the result matrix back to its caller as built so far.  In full: let
`multiply_matrices` be entered with `*error == EXIT_OK`, let every cell before
`(row, col)` in row-major order have been finished, let the first `j` terms of
cell `(row, col)` have been accumulated into the running sum `acc`, and let
the call for term `j` fail with status `e` (the product of `a[row][j]` and
`b[j][col]`, or the addition of that product to `acc`).  Then
`multiply_matrices` returns with status `e` a matrix of `a.rows` rows and
`b.columns` columns in which every cell before `(row, col)` holds its finished
sum and `(row, col)` and all later cells are NULL. -/
theorem multiply_matrices_reports_failure (M : Nat) (a b : Matrix) (row col j : Nat)
    (y z acc : BigInteger) (e : error_t)
    (hrow : row < a.rows) (hcol : col < b.columns) (hj : j < a.columns)
    (hbefore : ∀ r c, c < b.columns → (r < row ∨ (r = row ∧ c < col)) →
      ∃ x, cell_result M a b r c = some (x, EXIT_OK))
    (hacc : cell_loop M a b row col j 0 zero_big_integer = some (acc, EXIT_OK))
    (hy : a.data row j = some y) (hz : b.data j col = some z) (he : e ≠ EXIT_OK)
    (hfail : (multiply_big_integers M y z).2 = e ∨
      ((multiply_big_integers M y z).2 = EXIT_OK ∧
        (add_big_integers M (multiply_big_integers M y z).1 acc false).2.2 = e)) :
    ∃ m, multiply_matrices M a b EXIT_OK = some (m, e) ∧
      m.rows = a.rows ∧ m.columns = b.columns ∧
      (∀ r c, c < b.columns → (r < row ∨ (r = row ∧ c < col)) →
        ∃ x, cell_result M a b r c = some (x, EXIT_OK) ∧ m.data r c = some x) ∧
      (∀ r c, ¬ (c < b.columns ∧ (r < row ∨ (r = row ∧ c < col))) → m.data r c = none) := by
  obtain ⟨x, hx⟩ := cell_result_fail M a b row col j y z acc e hj hacc hy hz he hfail
  obtain ⟨m, m1, m2, m3, m4, m5⟩ := row_loop_run M a b b.columns e a.rows 0
    (create_matrix a.rows b.columns) row col rfl (Nat.zero_le row) (by omega)
    (fun r c _ c2 c3 => hbefore r c c2 c3)
    (Or.inr ⟨by omega, hcol, he, x, hx⟩)
  refine ⟨m, ?_, m2, m3, fun r c c1 c2 => m4 r c (Nat.zero_le r) c1 c2, fun r c hn => ?_⟩
  · unfold multiply_matrices
    simp only []
    rw [if_neg (by simp)]
    exact m1
  · rw [m5 r c (by intro hx'; exact hn ⟨hx'.2.1, hx'.2.2⟩)]
    rfl

/-- The product `[[1, 0], [50, 50]]` times `[[1], [1]]` at `MAX_LENGTH = 2`:
the first cell is finished (`1`), and in the second cell the addition of
`50 * 1` to the running sum `50` fails with `EXIT_NUMBER_TOO_BIG`. -/
theorem multiply_matrices_reports_failure_witness :
    ∃ acc,
      cell_loop 2
          (ofRows 2 2 [[ofDigits false [1], ofDigits false [0]],
                       [ofDigits false [0, 5], ofDigits false [0, 5]]])
          (ofRows 2 1 [[ofDigits false [1]], [ofDigits false [1]]]) 1 0 1 0 zero_big_integer
        = some (acc, EXIT_OK) ∧
      value acc = 50 ∧
      (multiply_big_integers 2 (ofDigits false [0, 5]) (ofDigits false [1])).2 = EXIT_OK ∧
      (add_big_integers 2
          (multiply_big_integers 2 (ofDigits false [0, 5]) (ofDigits false [1])).1
          acc false).2.2 = EXIT_NUMBER_TOO_BIG ∧
      ∃ m, multiply_matrices 2
          (ofRows 2 2 [[ofDigits false [1], ofDigits false [0]],
                       [ofDigits false [0, 5], ofDigits false [0, 5]]])
          (ofRows 2 1 [[ofDigits false [1]], [ofDigits false [1]]]) EXIT_OK
          = some (m, EXIT_NUMBER_TOO_BIG) ∧
        m.rows = 2 ∧ m.columns = 1 ∧
        (∀ r c, c < 1 → (r < 1 ∨ (r = 1 ∧ c < 0)) →
          ∃ x, cell_result 2
              (ofRows 2 2 [[ofDigits false [1], ofDigits false [0]],
                           [ofDigits false [0, 5], ofDigits false [0, 5]]])
              (ofRows 2 1 [[ofDigits false [1]], [ofDigits false [1]]]) r c
              = some (x, EXIT_OK) ∧ m.data r c = some x) ∧
        (∀ r c, ¬ (c < 1 ∧ (r < 1 ∨ (r = 1 ∧ c < 0))) → m.data r c = none) :=
  ⟨_, rfl, by decide, by decide, by decide,
   multiply_matrices_reports_failure 2
      (ofRows 2 2 [[ofDigits false [1], ofDigits false [0]],
                   [ofDigits false [0, 5], ofDigits false [0, 5]]])
      (ofRows 2 1 [[ofDigits false [1]], [ofDigits false [1]]]) 1 0 1
      (ofDigits false [0, 5]) (ofDigits false [1]) _
      EXIT_NUMBER_TOO_BIG (by decide) (by decide) (by decide)
      (fun r c hc hb => by
        have hc1 : c < 1 := hc
        have hr : r = 0 := by omega
        have hc0 : c = 0 := by omega
        subst hr; subst hc0
        exact ⟨_, rfl⟩)
      rfl rfl rfl (by decide) (Or.inr ⟨by decide, by decide⟩)⟩

/-! ## Matrices without negative entries -/

theorem value_of_nonnegative (b : BigInteger) (h : b.negative = false) :
    value b = magnitude b := by
  simp [value, h]

theorem cell_loop_value (M : Nat) (a b : Matrix) (row col : Nat)
    (ha : ∀ j, j < a.columns → NonNegativeCell M (a.data row j))
    (hb : ∀ j, j < a.columns → NonNegativeCell M (b.data j col)) :
    ∀ (k i : Nat) (bigint x : BigInteger), i + k = a.columns →
      WellFormed M bigint → bigint.negative = false →
      value bigint = cell_sum a b row col i →
      cell_loop M a b row col k i bigint = some (x, EXIT_OK) →
      x.negative = false ∧ value x = cell_sum a b row col a.columns := by
  intro k
  induction k with
  | zero =>
    intro i bigint x hik _ hneg hval h
    simp only [cell_loop, Option.some.injEq, Prod.mk.injEq] at h
    have hi : i = a.columns := by omega
    rw [← h.1, ← hi]
    exact ⟨hneg, hval⟩
  | succ k ih =>
    intro i bigint x hik hwf hneg hval h
    have hi : i < a.columns := by omega
    have hya := ha i hi
    have hzb := hb i hi
    simp only [cell_loop] at h
    cases hy : a.data row i with
    | none => rw [hy] at hya; exact absurd hya (by simp [NonNegativeCell])
    | some y =>
      cases hz : b.data i col with
      | none => rw [hz] at hzb; exact absurd hzb (by simp [NonNegativeCell])
      | some z =>
        rw [hy] at hya
        rw [hz] at hzb
        obtain ⟨yc, yn⟩ : Canonical M y ∧ y.negative = false := hya
        obtain ⟨zc, zn⟩ : Canonical M z ∧ z.negative = false := hzb
        rw [hy, hz] at h
        simp only [] at h
        obtain ⟨_, _, p3⟩ := multiply_big_integers_post M y z yc.1 zc.1 zc.2.1
        by_cases hp : (multiply_big_integers M y z).2 = EXIT_OK
        · rw [if_neg (not_not.mpr hp)] at h
          obtain ⟨q1, q2, q3⟩ := p3 hp
          have hpn : (multiply_big_integers M y z).1.negative = false := by
            rw [q3, yn, zn]; rfl
          obtain ⟨_, _, _, a4⟩ := add_big_integers_post M (multiply_big_integers M y z).1
            bigint false q1 hwf (Or.inr (hpn.trans hneg.symm))
          by_cases hadd :
              (add_big_integers M (multiply_big_integers M y z).1 bigint false).2.2 = EXIT_OK
          · rw [if_neg (not_not.mpr hadd)] at h
            obtain ⟨b1, b2, b3, _⟩ := a4 hadd
            refine ih (i + 1) _ x (by omega) b1 (b3.trans hneg) ?_ h
            rw [value_of_nonnegative _ (b3.trans hneg), b2, q2]
            simp only [cell_sum, hy, hz, cell_value]
            rw [← hval, value_of_nonnegative _ hneg, value_of_nonnegative _ yn,
              value_of_nonnegative _ zn]
            ring
          · rw [if_pos hadd] at h
            simp only [Option.some.injEq, Prod.mk.injEq] at h
            exact absurd h.2 hadd
        · rw [if_pos hp] at h
          simp only [Option.some.injEq, Prod.mk.injEq] at h
          exact absurd h.2 hp

theorem cell_result_value (M : Nat) (a b : Matrix) (row col : Nat)
    (ha : ∀ j, j < a.columns → NonNegativeCell M (a.data row j))
    (hb : ∀ j, j < a.columns → NonNegativeCell M (b.data j col))
    (x : BigInteger) (h : cell_result M a b row col = some (x, EXIT_OK)) :
    x.negative = false ∧ value x = cell_sum a b row col a.columns := by
  unfold cell_result at h
  by_cases hc : a.columns = 0
  · rw [hc] at h ⊢
    simp only [cell_loop, Option.some.injEq, Prod.mk.injEq] at h
    rw [← h.1]
    exact ⟨rfl, by simp [value, zero_big_integer_magnitude, cell_sum]⟩
  · have h0 := ha 0 (by omega)
    have hM : 1 ≤ M := by
      cases hy : a.data row 0 with
      | none => rw [hy] at h0; exact absurd h0 (by simp [NonNegativeCell])
      | some y =>
        rw [hy] at h0
        obtain ⟨yc, _⟩ : Canonical M y ∧ y.negative = false := h0
        exact le_trans yc.1.1 yc.1.2.1
    exact cell_loop_value M a b row col ha hb a.columns 0 zero_big_integer x (by omega)
      (zero_big_integer_wf M hM) rfl
      (by simp [value, zero_big_integer_magnitude, cell_sum]) h

/-- C20: for matrices `a` and `b` with `a.columns = b.rows` whose entries are
canonical BigIntegers with the negative flag clear, if `multiply_matrices`
(entered with `*error == EXIT_OK`) reports `EXIT_OK`, every result cell
`(row, col)` holds a BigInteger with the negative flag clear whose value is the
sum over `k < a.columns` of `value(a[row][k]) * value(b[k][col])`. -/
theorem multiply_matrices_nonnegative (M : Nat) (a b m : Matrix)
    (hdim : a.columns = b.rows)
    (ha : ∀ r, r < a.rows → ∀ k, k < a.columns → NonNegativeCell M (a.data r k))
    (hb : ∀ k, k < b.rows → ∀ c, c < b.columns → NonNegativeCell M (b.data k c))
    (h : multiply_matrices M a b EXIT_OK = some (m, EXIT_OK)) :
    m.rows = a.rows ∧ m.columns = b.columns ∧
    ∀ row col, row < a.rows → col < b.columns →
      ∃ x, m.data row col = some x ∧ x.negative = false ∧
        value x = cell_sum a b row col a.columns := by
  obtain ⟨i1, i2, s, t, _, s3, _, s5⟩ := multiply_matrices_spec M a b m EXIT_OK h
  refine ⟨i1, i2, fun row col hr hc => ?_⟩
  have hs : s = a.rows := by
    rcases s5 with ⟨h1, _⟩ | ⟨_, _, h3, _⟩
    · exact h1
    · exact absurd rfl h3
  obtain ⟨x, x1, x2⟩ := s3 row col hc (Or.inl (by omega))
  obtain ⟨v1, v2⟩ := cell_result_value M a b row col (fun j hj => ha row hr j hj)
    (fun j hj => hb j (by omega) col hc) x x1
  exact ⟨x, x2, v1, v2⟩

/-- The product `[[10, 2], [3, 0]]` times `[[5, 0], [7, 8]]` at
`MAX_LENGTH = 4`; the products by `0` are zeros, one of them of two digits. -/
theorem multiply_matrices_nonnegative_witness :
    ∃ m, multiply_matrices 4
        (ofRows 2 2 [[ofDigits false [0, 1], ofDigits false [2]],
                     [ofDigits false [3], ofDigits false [0]]])
        (ofRows 2 2 [[ofDigits false [5], ofDigits false [0]],
                     [ofDigits false [7], ofDigits false [8]]]) EXIT_OK
        = some (m, EXIT_OK) ∧
      m.rows = 2 ∧ m.columns = 2 ∧
      ∀ row col, row < 2 → col < 2 →
        ∃ x, m.data row col = some x ∧ x.negative = false ∧
          value x = cell_sum
            (ofRows 2 2 [[ofDigits false [0, 1], ofDigits false [2]],
                         [ofDigits false [3], ofDigits false [0]]])
            (ofRows 2 2 [[ofDigits false [5], ofDigits false [0]],
                         [ofDigits false [7], ofDigits false [8]]]) row col 2 :=
  ⟨_, rfl,
   multiply_matrices_nonnegative 4
      (ofRows 2 2 [[ofDigits false [0, 1], ofDigits false [2]],
                   [ofDigits false [3], ofDigits false [0]]])
      (ofRows 2 2 [[ofDigits false [5], ofDigits false [0]],
                   [ofDigits false [7], ofDigits false [8]]]) _
      rfl (by decide) (by decide) rfl⟩

/-- What is left of the commutativity of `multiply_big_integers`: for canonical
`a` and `b` both orders report the same status and, on `EXIT_OK`, results with
the same negative flag and the same magnitude; when the product is not zero
they also have the same length and the same digits. -/
theorem multiply_big_integers_comm_up_to_zero (M : Nat) (a b : BigInteger)
    (ha : Canonical M a) (hb : Canonical M b) :
    (multiply_big_integers M a b).2 = (multiply_big_integers M b a).2 ∧
    ((multiply_big_integers M a b).2 = EXIT_OK →
      (multiply_big_integers M a b).1.negative = (multiply_big_integers M b a).1.negative ∧
      magnitude (multiply_big_integers M a b).1 = magnitude (multiply_big_integers M b a).1 ∧
      (magnitude a * magnitude b ≠ 0 →
        (multiply_big_integers M a b).1.length = (multiply_big_integers M b a).1.length ∧
        ∀ i, i < M →
          (multiply_big_integers M a b).1.data i = (multiply_big_integers M b a).1.data i)) := by
  obtain ⟨p1, p2, p3⟩ := multiply_big_integers_post M a b ha.1 hb.1 hb.2.1
  obtain ⟨q1, q2, q3⟩ := multiply_big_integers_post M b a hb.1 ha.1 ha.2.1
  rw [mul_comm (magnitude b) (magnitude a)] at q1 q3
  have herr : (multiply_big_integers M a b).2 = (multiply_big_integers M b a).2 := by
    rcases p2 with h | h
    · rcases q2 with h' | h'
      · rw [h, h']
      · exact absurd (p1.2 (q1.1 h')) (by rw [h]; decide)
    · rcases q2 with h' | h'
      · exact absurd (q1.2 (p1.1 h)) (by rw [h']; decide)
      · rw [h, h']
  refine ⟨herr, fun hok => ?_⟩
  have hok' : (multiply_big_integers M b a).2 = EXIT_OK := herr ▸ hok
  obtain ⟨x1, x2, x3⟩ := p3 hok
  obtain ⟨y1, y2, y3⟩ := q3 hok'
  refine ⟨?_, by rw [x2, y2], fun hnz => ?_⟩
  · rw [x3, y3]
    cases a.negative <;> cases b.negative <;> rfl
  · have na := multiply_big_integers_normal M a b ha.1 hb.1 hb.2.1 hok
    have nb := multiply_big_integers_normal M b a hb.1 ha.1 ha.2.1 hok'
    exact wf_unique M _ _ x1 y1 (na (by rw [x2]; exact hnz)) (nb (by rw [y2]; exact hnz))
      (by rw [x2, y2])

end Matrixmult
